import Mathlib

/-!
Verification development for the markdown-to-HTML core of the inkdown desktop
application (`src-tauri/src/markdown/{gfm_parser,basic_parser}.rs`).

Strings are embedded as `List Char` (`Str`); Rust code that inspects raw UTF-8
bytes (`str::len`, `bytes()`) is embedded through `utf8Len` / per-character
tests, which agree with the byte-level code on every observable result: all
byte-level tests in the source (ASCII digit tests, `:`/`-`/space membership,
marker prefixes) fail on every byte of a multi-byte character exactly as the
character-level test fails on that character.

Functions whose Rust originals loop over an advancing iterator are embedded
either structurally (when the Rust loop consumes its list argument one element
at a time) or with an explicit fuel argument that bounds the number of
iterations (`scan_inline`, the tokenizers); each such loop consumes at least
one element per iteration, so `length + 1` fuel is always sufficient and the
out-of-fuel branch is unreachable from the entry points.

The inline formatter is embedded twice: `process_inline_formatting` is the
cache-free formatter (the value computed by the Rust function on a cache
miss), used by the tokenizer embeddings; the memoization cache of
`GfmMarkdownParser::process_inline_formatting` is modelled separately
(`pf_call`, with the `DefaultHasher` hash embedded as `rust_hash`) for the
cache-transparency claim.
-/

set_option maxRecDepth 20000

abbrev Str := List Char

def toStr (s : String) : Str := s.data

/-- Unicode `White_Space` code points: Rust `char::is_whitespace`. -/
def is_whitespace (c : Char) : Bool :=
  decide (c.toNat ∈ [0x09, 0x0A, 0x0B, 0x0C, 0x0D, 0x20, 0x85, 0xA0, 0x1680,
    0x2000, 0x2001, 0x2002, 0x2003, 0x2004, 0x2005, 0x2006, 0x2007, 0x2008,
    0x2009, 0x200A, 0x2028, 0x2029, 0x202F, 0x205F, 0x3000])

/-- Rust `u8::is_ascii_whitespace`: space, tab, newline, form feed, carriage return. -/
def is_ascii_whitespace (c : Char) : Bool :=
  decide (c.toNat ∈ [0x20, 0x09, 0x0A, 0x0C, 0x0D])

/-- Rust `str::trim_start`. -/
def trim_start (s : Str) : Str := s.dropWhile is_whitespace

/-- Rust `str::trim_end`. -/
def trim_end (s : Str) : Str := (s.reverse.dropWhile is_whitespace).reverse

/-- Rust `str::trim`. -/
def trimBoth (s : Str) : Str := trim_start (trim_end s)

/-- Rust `str::len`: the UTF-8 byte length. -/
def utf8Len (s : Str) : Nat := (s.map Char.utf8Size).sum

/-- One step of Rust `str::lines`: a piece that was terminated by `\n` also
loses one trailing `\r`. -/
def stripCR (l : Str) : Str :=
  match l.getLast? with
  | some c => if c = '\r' then l.dropLast else l
  | none => l

def linesAcc : Str → Str → List Str
  | [], acc => [acc]
  | '\n' :: rest, acc =>
    if rest = [] then [stripCR acc] else stripCR acc :: linesAcc rest []
  | c :: rest, acc => linesAcc rest (acc ++ [c])

/-- Rust `str::lines`: split at `\n`, strip a `\r` before each split point,
no final empty line for a trailing newline. -/
def linesOf (doc : Str) : List Str := if doc = [] then [] else linesAcc doc []

/-- Rust `str::find` for a string pattern: index of the first occurrence. -/
def findSeq (pat : Str) : Str → Option Nat
  | [] => if pat = [] then some 0 else none
  | c :: cs => if pat.isPrefixOf (c :: cs) then some 0 else (findSeq pat (cs)).map (· + 1)

/-- Rust `str::find` for a character pattern. -/
def findCharIdx (c : Char) : Str → Option Nat
  | [] => none
  | x :: xs => if x = c then some 0 else (findCharIdx c xs).map (· + 1)

/-- Rust `str::split` on one character: always at least one piece. -/
def splitOnChar (sep : Char) : Str → List Str
  | [] => [[]]
  | c :: cs =>
    match splitOnChar sep cs with
    | [] => [[c]]
    | p :: ps => if c = sep then [] :: p :: ps else (c :: p) :: ps

/-- `count_words` (identical in `gfm_parser.rs` and `basic_parser.rs`):
scan with an `in_word` flag, counting starts of non-whitespace runs. -/
def count_words_go : Bool → Str → Nat
  | _, [] => 0
  | inw, c :: cs =>
    if is_ascii_whitespace c then count_words_go false cs
    else if inw then count_words_go true cs
    else count_words_go true cs + 1

def count_words (s : Str) : Nat :=
  if s = [] then 0 else count_words_go false s

/-- `escape_html` (same replacement table in both dialects). -/
def escapeChar (c : Char) : Str :=
  if c = '&' then toStr "&amp;"
  else if c = '<' then toStr "&lt;"
  else if c = '>' then toStr "&gt;"
  else if c = '"' then toStr "&quot;"
  else if c = Char.ofNat 39 then toStr "&#x27;"
  else [c]

def escape_html (text : Str) : Str :=
  if ¬ text.any (fun c =>
      c == '&' || c == '<' || c == '>' || c == '"' || c == Char.ofNat 39) then text
  else (text.map escapeChar).flatten

/-! ### Inline formatting: `extract_until` and `extract_link`

`extract_until` advances the shared character iterator even when it fails;
the embedding therefore returns the iterator's final position (the remaining
characters) next to the optional content.  The Rust cap check pushes the
character first and then tests `content.len() > max_len`. -/

/-- `extract_until` for the one-character delimiters `*`, `_`, `` ` ``. -/
def extract_single (d : Char) (cap : Nat) : Str → Str → Option Str × Str
  | _, [] => (none, [])
  | acc, c :: cs =>
    if c == d then (some acc, cs)
    else
      let acc2 := acc ++ [c]
      if utf8Len acc2 > cap then (none, cs) else extract_single d cap acc2 cs

/-- `extract_until` for the two-character delimiters `**`, `__`, `~~`.
When the lone delimiter character is the final character of the input the
Rust loop pushes it, possibly fails the cap check, and then exits with the
iterator exhausted — either way yielding `None` with nothing left. -/
def extract_double (d : Char) (cap : Nat) : Str → Str → Option Str × Str
  | _, [] => (none, [])
  | acc, c :: cs =>
    if c == d then
      match cs with
      | c2 :: cs2 =>
        if c2 == d then (some acc, cs2)
        else
          let acc2 := acc ++ [d]
          if utf8Len acc2 > cap then (none, cs) else extract_double d cap acc2 cs
      | [] => (none, [])
    else
      let acc2 := acc ++ [c]
      if utf8Len acc2 > cap then (none, cs) else extract_double d cap acc2 cs

/-- First phase of `extract_link`: text up to `]` (the `]` is consumed). -/
def link_text_go (cap : Nat) : Str → Str → Option (Str × Str)
  | _, [] => none
  | acc, c :: cs =>
    if c == ']' then some (acc, cs)
    else
      let acc2 := acc ++ [c]
      if utf8Len acc2 > cap then none else link_text_go cap acc2 cs

/-- Second phase of `extract_link`: url up to `)`. -/
def link_url_go (cap : Nat) : Str → Str → Option (Str × Str)
  | _, [] => none
  | acc, c :: cs =>
    if c == ')' then some (acc, cs)
    else
      let acc2 := acc ++ [c]
      if utf8Len acc2 > cap then none else link_url_go cap acc2 cs

/-- `extract_link` on a cloned iterator: on success, returns text, url, and
the iterator position that the caller commits to. -/
def extract_link (tcap ucap : Nat) (s : Str) : Option (Str × Str × Str) :=
  match link_text_go tcap [] s with
  | none => none
  | some (text, rest) =>
    match rest with
    | '(' :: rs =>
      match link_url_go ucap [] rs with
      | none => none
      | some (url, rest2) => some (text, url, rest2)
    | _ => none

namespace Gfm

/-- The trigger bytes of the GFM fast path. -/
def is_trigger (c : Char) : Bool :=
  c == '*' || c == '`' || c == '[' || c == '!' || c == '~' || c == '_'

/-- The character-scanning loop of `GfmMarkdownParser::process_inline_formatting`,
with fuel bounding the number of loop iterations (each iteration consumes at
least one input character). -/
def scan_inline : Nat → Str → Str
  | 0, _ => []
  | _ + 1, [] => []
  | fuel + 1, '~' :: '~' :: cs =>
    match extract_double '~' 300 [] cs with
    | (some content, rest) =>
      toStr "<del>" ++ content ++ toStr "</del>" ++ scan_inline fuel rest
    | (none, rest) => toStr "~~" ++ scan_inline fuel rest
  | fuel + 1, '*' :: '*' :: cs =>
    match extract_double '*' 300 [] cs with
    | (some content, rest) =>
      toStr "<strong>" ++ content ++ toStr "</strong>" ++ scan_inline fuel rest
    | (none, rest) => toStr "**" ++ scan_inline fuel rest
  | fuel + 1, '*' :: cs =>
    match extract_single '*' 200 [] cs with
    | (some content, rest) =>
      toStr "<em>" ++ content ++ toStr "</em>" ++ scan_inline fuel rest
    | (none, rest) => '*' :: scan_inline fuel rest
  | fuel + 1, '_' :: '_' :: cs =>
    match extract_double '_' 300 [] cs with
    | (some content, rest) =>
      toStr "<strong>" ++ content ++ toStr "</strong>" ++ scan_inline fuel rest
    | (none, rest) => toStr "__" ++ scan_inline fuel rest
  | fuel + 1, '_' :: cs =>
    match extract_single '_' 200 [] cs with
    | (some content, rest) =>
      toStr "<em>" ++ content ++ toStr "</em>" ++ scan_inline fuel rest
    | (none, rest) => '_' :: scan_inline fuel rest
  | fuel + 1, '`' :: cs =>
    match extract_single '`' 200 [] cs with
    | (some content, rest) =>
      toStr "<code>" ++ escape_html content ++ toStr "</code>" ++ scan_inline fuel rest
    | (none, rest) => '`' :: scan_inline fuel rest
  | fuel + 1, '!' :: '[' :: cs =>
    match extract_link 200 500 cs with
    | some (alt, url, rest) =>
      toStr "<img src=\"" ++ escape_html url ++ toStr "\" alt=\"" ++ escape_html alt
        ++ toStr "\" loading=\"lazy\">" ++ scan_inline fuel rest
    | none => '!' :: scan_inline fuel cs
  | fuel + 1, '[' :: cs =>
    match extract_link 200 500 cs with
    | some (text, url, rest) =>
      toStr "<a href=\"" ++ escape_html url ++ toStr "\">" ++ escape_html text
        ++ toStr "</a>" ++ scan_inline fuel rest
    | none => '[' :: scan_inline fuel cs
  | fuel + 1, c :: cs => c :: scan_inline fuel cs

/-- `process_inline_formatting`, cache aside (the value computed on a miss;
see the cache model below for the memoization layer). -/
def process_inline_formatting (text : Str) : Str :=
  if text = [] then []
  else if ¬ text.any is_trigger then text
  else scan_inline (text.length + 1) text

end Gfm

namespace Basic

/-- The trigger bytes of the basic fast path (no `~`, no `_`). -/
def is_trigger (c : Char) : Bool :=
  c == '*' || c == '`' || c == '[' || c == '!'

/-- The character-scanning loop of `BasicMarkdownParser::process_inline_formatting`
(caps 200 everywhere, link caps 100/200, no strikethrough, no underscores). -/
def scan_inline : Nat → Str → Str
  | 0, _ => []
  | _ + 1, [] => []
  | fuel + 1, '*' :: '*' :: cs =>
    match extract_double '*' 200 [] cs with
    | (some content, rest) =>
      toStr "<strong>" ++ content ++ toStr "</strong>" ++ scan_inline fuel rest
    | (none, rest) => toStr "**" ++ scan_inline fuel rest
  | fuel + 1, '*' :: cs =>
    match extract_single '*' 200 [] cs with
    | (some content, rest) =>
      toStr "<em>" ++ content ++ toStr "</em>" ++ scan_inline fuel rest
    | (none, rest) => '*' :: scan_inline fuel rest
  | fuel + 1, '`' :: cs =>
    match extract_single '`' 200 [] cs with
    | (some content, rest) =>
      toStr "<code>" ++ escape_html content ++ toStr "</code>" ++ scan_inline fuel rest
    | (none, rest) => '`' :: scan_inline fuel rest
  | fuel + 1, '!' :: '[' :: cs =>
    match extract_link 100 200 cs with
    | some (alt, url, rest) =>
      toStr "<img src=\"" ++ escape_html url ++ toStr "\" alt=\"" ++ escape_html alt
        ++ toStr "\" loading=\"lazy\">" ++ scan_inline fuel rest
    | none => '!' :: scan_inline fuel cs
  | fuel + 1, '[' :: cs =>
    match extract_link 100 200 cs with
    | some (text, url, rest) =>
      toStr "<a href=\"" ++ escape_html url ++ toStr "\">" ++ escape_html text
        ++ toStr "</a>" ++ scan_inline fuel rest
    | none => '[' :: scan_inline fuel cs
  | fuel + 1, c :: cs => c :: scan_inline fuel cs

/-- `BasicMarkdownParser::process_inline_formatting`, cache aside. -/
def process_inline_formatting (text : Str) : Str :=
  if text = [] then []
  else if ¬ text.any is_trigger then text
  else scan_inline (text.length + 1) text

end Basic

/-! ### Token types (`GfmToken`, `BasicToken` and friends) -/

namespace Gfm

inductive Alignment
  | left
  | center
  | right
  | none
deriving DecidableEq, Repr

inductive AlertType
  | note
  | tip
  | important
  | warning
  | caution
deriving DecidableEq, Repr

structure GfmListItem where
  content : Str
  level : Nat
  checked : Option Bool
deriving DecidableEq, Repr

inductive GfmToken
  | heading (level : Nat) (text : Str)
  | paragraph (text : Str)
  | code_block (language : Option Str) (code : Str)
  | list (items : List GfmListItem) (ordered : Bool)
  | table (headers : List Str) (rows : List (List Str)) (alignments : List Alignment)
  | blockquote (text : Str)
  | alert (alert_type : AlertType) (content : Str)
  | horizontal_rule
deriving DecidableEq, Repr

end Gfm

namespace Basic

structure BasicListItem where
  content : Str
  level : Nat
deriving DecidableEq, Repr

inductive BasicToken
  | heading (level : Nat) (text : Str)
  | paragraph (text : Str)
  | code_block (language : Option Str) (code : Str)
  | list (items : List BasicListItem) (ordered : Bool)
  | blockquote (text : Str)
  | horizontal_rule
deriving DecidableEq, Repr

end Basic

/-- `ParseResult` of `markdown/mod.rs`; `error` is never populated. -/
structure ParseResult where
  html : Str
  word_count : Nat
  error : Option Str
deriving DecidableEq, Repr

/-! ### Shared block helpers -/

/-- `parse_heading` body, identical in `gfm_parser.rs` and `basic_parser.rs`:
count `#` while below 6, break at a space, reject any other character. -/
def heading_level_loop : Nat → Str → Option Nat
  | level, [] => some level
  | level, c :: cs =>
    if c == '#' && level < 6 then heading_level_loop (level + 1) cs
    else if c == ' ' then some level
    else none

def parse_heading (line : Str) : Option (Nat × Str) :=
  let starts_hash : Bool := match line.head? with | some c => c == '#' | _ => false
  if starts_hash then
    match heading_level_loop 0 line with
    | none => none
    | some level =>
      if level == 0 || level > 6 then none
      else
        let text := trimBoth (line.drop level)
        if text = [] then none else some (level, text)
  else none

/-- The line-collecting loop of `parse_code_block` (identical in both
dialects): append lines until one whose trim is exactly three backticks,
reporting the index of that closing line when found. -/
def code_block_loop (acc : Str) : List Str → Str × Option Nat
  | [] => (acc, none)
  | r :: rs =>
    if trimBoth r = toStr "```" then (acc, some 0)
    else
      let next := code_block_loop (if acc = [] then r else acc ++ '\n' :: r) rs
      (next.1, next.2.map (· + 1))

namespace Gfm

/-- `GfmMarkdownParser::is_list_line`. -/
def is_list_line (line : Str) : Bool :=
  let trimmed := trim_start line
  if (toStr "- ").isPrefixOf trimmed || (toStr "* ").isPrefixOf trimmed
      || (toStr "+ ").isPrefixOf trimmed then true
  else
    match findSeq (toStr ". ") trimmed with
    | some dot_pos =>
      if 0 < dot_pos ∧ dot_pos ≤ 4 then (trimmed.take dot_pos).all Char.isDigit
      else false
    | none => false

/-- `GfmMarkdownParser::get_list_indent_level`: leading spaces count 1,
tabs count 4, halved and capped at 20.  (The `u8` saturation of the Rust
accumulator cannot change the capped result.) -/
def indent_weight : Str → Nat
  | [] => 0
  | c :: cs =>
    if c == ' ' then 1 + indent_weight cs
    else if c == '\t' then 4 + indent_weight cs
    else 0

def get_list_indent_level (line : Str) : Nat := (indent_weight line / 2).min 20

/-- Content after the list marker: after the first `. ` for an ordered run,
after the two marker characters otherwise. -/
def list_content (is_ordered : Bool) (trimmed : Str) : Str :=
  if is_ordered then
    match findSeq (toStr ". ") trimmed with
    | some pos => trimmed.drop (pos + 2)
    | none => []
  else trimmed.drop 2

/-- The GFM task-list prefix test on item content: `[ ]`, `[x]`, `[X]`. -/
def task_split (content : Str) : Option Bool × Str :=
  match content with
  | '[' :: c2 :: c3 :: rest =>
    if c2 == ' ' && c3 == ']' then (some false, rest)
    else if (c2 == 'x' || c2 == 'X') && c3 == ']' then (some true, rest)
    else (none, content)
  | _ => (none, content)

/-- The item-collecting loop of `GfmMarkdownParser::parse_list`: blank lines
are consumed, non-list lines stop the run. -/
def parse_list_loop (is_ordered : Bool) (base : Nat) : List Str → List GfmListItem × Nat
  | [] => ([], 0)
  | l :: rest =>
    if trimBoth l = [] then
      let next := parse_list_loop is_ordered base rest
      (next.1, next.2 + 1)
    else if ¬ is_list_line l then ([], 0)
    else
      let level := get_list_indent_level l - base
      let trimmed := trim_start l
      let content := list_content is_ordered trimmed
      let split := task_split content
      let item : GfmListItem :=
        ⟨process_inline_formatting (trimBoth split.2), level, split.1⟩
      let next := parse_list_loop is_ordered base rest
      (item :: next.1, next.2 + 1)

/-- `GfmMarkdownParser::parse_list` on `lines[start] = l, lines[start+1..] = rest`. -/
def parse_list (l : Str) (rest : List Str) : GfmToken × Nat :=
  let is_ordered := match (trim_start l).head? with | some c => c.isDigit | _ => false
  let base := get_list_indent_level l
  let run := parse_list_loop is_ordered base (l :: rest)
  (GfmToken.list run.1 is_ordered, run.2)

/-- `GfmMarkdownParser::parse_code_block` on `lines[start] = l`:
language from the raw first line past the three backticks; `consumed` is
`close_index + 2` when a closing fence is found — and stays `1` otherwise,
even though `code` has absorbed every remaining line. -/
def parse_code_block (l : Str) (rest : List Str) : GfmToken × Nat :=
  let language :=
    if utf8Len l > 3 then
      let lang := trimBoth (l.drop 3)
      if lang = [] then none else some lang
    else none
  let run := code_block_loop [] rest
  let consumed := match run.2 with | some j => j + 2 | none => 1
  (GfmToken.code_block language run.1, consumed)

/-- `GfmMarkdownParser::is_potential_table_line`. -/
def is_potential_table_line (line : Str) : Bool :=
  utf8Len line > 2 && line.contains '|'

/-- Strip one leading and trailing `|` when both are present, then split on `|`
— the total reading of `line[1..line.len()-1].split('|')`.  It is exact where
the slice cannot panic: in `is_table_separator` the sliced line is the trimmed
line, already checked to hold at least three bytes.  On raw lines the slice
panics when the line is exactly `"|"`; `pipe_cells_chk` below keeps that
panic, and this function is its panic-free projection
(`pipe_cells_chk_some`). -/
def pipe_cells (line : Str) : List Str :=
  if (match line.head? with | some c => c == '|' | _ => false)
      && (match line.getLast? with | some c => c == '|' | _ => false) then
    splitOnChar '|' ((line.drop 1).dropLast)
  else splitOnChar '|' line

/-- The cell loop of `is_table_separator`: an invalid character in a
non-empty cell rejects immediately; `found` records whether some non-empty
cell contained a `-`. -/
def separator_loop : List Str → Bool → Bool
  | [], found => found
  | cell :: cs, found =>
    let ct := trimBoth cell
    if ct = [] then separator_loop cs found
    else if ¬ ct.all (fun c => c == ':' || c == '-' || c == ' ') then false
    else separator_loop cs (found || ct.contains '-')

/-- `GfmMarkdownParser::is_table_separator`. -/
def is_table_separator (line : Str) : Bool :=
  let trimmed := trimBoth line
  if utf8Len trimmed < 3 ∨ trimmed.contains '|' = false then false
  else separator_loop (pipe_cells trimmed) false

/-- Alignment of one separator cell in `parse_table`: colons decide only when
the trimmed cell is non-empty and contains a dash. -/
def cell_alignment (cell : Str) : Alignment :=
  let ct := trimBoth cell
  if ct ≠ [] ∧ ct.contains '-' then
    let starts_colon := match ct.head? with | some c => c == ':' | _ => false
    let ends_colon := match ct.getLast? with | some c => c == ':' | _ => false
    if starts_colon then (if ends_colon then Alignment.center else Alignment.left)
    else (if ends_colon then Alignment.right else Alignment.none)
  else Alignment.none

/-- The data-row loop of `parse_table`: rows continue while the line contains
`|` and is not blank; every cell is trimmed and inline-formatted.  This is the
total projection of `table_rows_loop_chk` below, which keeps the byte-slice
panic on a data row that is exactly `"|"`; the two agree whenever no such row
is collected (`table_rows_loop_chk_some`). -/
def table_rows_loop : List Str → List (List Str) × Nat
  | [] => ([], 0)
  | r :: rs =>
    if r.contains '|' = false ∨ trimBoth r = [] then ([], 0)
    else
      let row := (pipe_cells r).map (fun cell => process_inline_formatting (trimBoth cell))
      let next := table_rows_loop rs
      if row = [] then next else (row :: next.1, next.2 + 1)

/-- `GfmMarkdownParser::parse_table` on `lines[start] = l1`,
`lines[start+1] = l2`, `lines[start+2..] = rest`. -/
def parse_table (l1 l2 : Str) (rest : List Str) : Option (GfmToken × Nat) :=
  if ¬ is_table_separator l2 then none
  else
    let headers := (pipe_cells l1).filterMap (fun cell =>
      let t := trimBoth cell
      if t = [] then none else some (process_inline_formatting t))
    if headers = [] then none
    else
      let alignments := (pipe_cells l2).map cell_alignment
      let run := table_rows_loop rest
      some (GfmToken.table headers run.1 alignments, 2 + run.2)

/-- `line[1..line.len()-1].split('|')` as the Rust table code evaluates it on
a raw line: when the line both starts and ends with `|`, the byte slice
`[1..len-1]` is taken, and for a line shorter than two bytes — that is, for
the exact line `"|"` — the slice start exceeds its end and the program
panics, modelled as `none`. -/
def pipe_cells_chk (line : Str) : Option (List Str) :=
  if (match line.head? with | some c => c == '|' | _ => false)
      && (match line.getLast? with | some c => c == '|' | _ => false) then
    if utf8Len line < 2 then none
    else some (splitOnChar '|' ((line.drop 1).dropLast))
  else some (splitOnChar '|' line)

/-- The data-row loop of `parse_table` with the slicing panic kept explicit:
`none` means the Rust loop panicked on a collected data row that is exactly
`"|"`, aborting the whole call. -/
def table_rows_loop_chk : List Str → Option (List (List Str) × Nat)
  | [] => some ([], 0)
  | r :: rs =>
    if r.contains '|' = false ∨ trimBoth r = [] then some ([], 0)
    else
      match pipe_cells_chk r with
      | none => none
      | some cells =>
        let row := cells.map (fun cell => process_inline_formatting (trimBoth cell))
        match table_rows_loop_chk rs with
        | none => none
        | some next => some (if row = [] then next else (row :: next.1, next.2 + 1))

/-- Whether the data-row loop reaches a panicking row: scanning stops at the
first line without a `|` or with blank trim, and a row that is exactly `"|"`
before that point aborts the program. -/
def rows_panic : List Str → Bool
  | [] => false
  | r :: rs =>
    if r.contains '|' = false ∨ trimBoth r = [] then false
    else if r = toStr "|" then true
    else rows_panic rs

/-- `GfmMarkdownParser::parse_table` with the three raw-line `[1..len-1]`
slices kept fallible: `Except.error ()` is a Rust panic, which aborts the
call so that no table — and no other output — is produced. -/
def parse_table_chk (l1 l2 : Str) (rest : List Str) :
    Except Unit (Option (GfmToken × Nat)) :=
  if ¬ is_table_separator l2 then Except.ok none
  else
    match pipe_cells_chk l1 with
    | none => Except.error ()
    | some hcells =>
      let headers := hcells.filterMap (fun cell =>
        let t := trimBoth cell
        if t = [] then none else some (process_inline_formatting t))
      if headers = [] then Except.ok none
      else
        match pipe_cells_chk l2 with
        | none => Except.error ()
        | some scells =>
          let alignments := scells.map cell_alignment
          match table_rows_loop_chk rest with
          | none => Except.error ()
          | some run =>
            Except.ok (some (GfmToken.table headers run.1 alignments, 2 + run.2))

/-- `GfmMarkdownParser::parse_alert_type`: the five case-sensitive tags. -/
def parse_alert_type (t : Str) : Option AlertType :=
  if t = toStr "[!NOTE]" then some AlertType.note
  else if t = toStr "[!TIP]" then some AlertType.tip
  else if t = toStr "[!IMPORTANT]" then some AlertType.important
  else if t = toStr "[!WARNING]" then some AlertType.warning
  else if t = toStr "[!CAUTION]" then some AlertType.caution
  else none

/-- The continuation loop of `parse_alert`: quoted lines are space-joined
(another alert start breaks), blank lines are consumed, anything else breaks. -/
def alert_loop : List Str → Str → Nat → Str × Nat
  | [], content, consumed => (content, consumed)
  | l :: rest, content, consumed =>
    let trimmed_line := trim_start l
    if (toStr "> ").isPrefixOf trimmed_line then
      let line_content := trimmed_line.drop 2
      if (toStr "[!").isPrefixOf line_content then (content, consumed)
      else
        let content2 := (if content = [] then [] else content ++ [' '])
          ++ process_inline_formatting line_content
        alert_loop rest content2 (consumed + 1)
    else if trimBoth trimmed_line = [] then alert_loop rest content (consumed + 1)
    else (content, consumed)

/-- `GfmMarkdownParser::parse_alert` on `lines[start] = l`. -/
def parse_alert (l : Str) (rest : List Str) : Option (GfmToken × Nat) :=
  let trimmed := trim_start l
  if ¬ (toStr "> [!").isPrefixOf trimmed then none
  else
    let alert_text := trimmed.drop 2
    match findCharIdx ']' alert_text with
    | none => none
    | some close_bracket =>
      let ty_str := alert_text.take (close_bracket + 1)
      match parse_alert_type ty_str with
      | none => none
      | some ty =>
        let remaining_first := trimBoth (alert_text.drop (close_bracket + 1))
        let content0 :=
          if remaining_first ≠ [] then process_inline_formatting remaining_first else []
        let run := alert_loop rest content0 1
        some (GfmToken.alert ty run.1, run.2)

/-- `GfmMarkdownParser::is_horizontal_rule`. -/
def is_horizontal_rule (line : Str) : Bool :=
  let trimmed := trimBoth line
  if utf8Len trimmed < 3 then false
  else
    match trimmed.head? with
    | some c =>
      if c == '-' || c == '*' then trimmed.all (· == c) && decide (utf8Len trimmed ≥ 3)
      else false
    | none => false

/-- The scanning loop of `GfmMarkdownParser::parse`, with fuel bounding the
number of iterations; every recognized construct consumes at least one line,
so fuel `lines.length + 1` never runs out. -/
def tokenize : Nat → List Str → List GfmToken
  | 0, _ => []
  | _ + 1, [] => []
  | fuel + 1, l :: rest =>
    let line := trim_end l
    if trimBoth line = [] then tokenize fuel rest
    else if (toStr "```").isPrefixOf line then
      let run := parse_code_block l rest
      run.1 :: tokenize fuel ((l :: rest).drop run.2)
    else
      match (if is_potential_table_line line then
               match rest with
               | l2 :: r2 => parse_table l l2 r2
               | [] => none
             else none) with
      | some (tok, consumed) => tok :: tokenize fuel ((l :: rest).drop consumed)
      | none =>
        match parse_heading line with
        | some h => GfmToken.heading h.1 h.2 :: tokenize fuel rest
        | none =>
          if is_horizontal_rule line then GfmToken.horizontal_rule :: tokenize fuel rest
          else if is_list_line line then
            let run := parse_list l rest
            run.1 :: tokenize fuel ((l :: rest).drop run.2)
          else if (toStr "> ").isPrefixOf (trim_start line) then
            match parse_alert l rest with
            | some (tok, consumed) => tok :: tokenize fuel ((l :: rest).drop consumed)
            | none =>
              GfmToken.blockquote (process_inline_formatting ((trim_start line).drop 2))
                :: tokenize fuel rest
          else
            GfmToken.paragraph (process_inline_formatting line) :: tokenize fuel rest

/-- `GfmMarkdownParser::parse` on the line list of a document. -/
def tokenize_lines (ls : List Str) : List GfmToken := tokenize (ls.length + 1) ls

/-- `GfmMarkdownParser::parse`: empty input short-circuits to no tokens
(the cache-eviction prologue touches only the memoization cache). -/
def parse (markdown : Str) : List GfmToken :=
  if markdown = [] then [] else tokenize_lines (linesOf markdown)

end Gfm

/-! ### Basic dialect block tokenizer (`basic_parser.rs`) -/

namespace Basic

/-- `BasicMarkdownParser::is_list_line`: needs two characters, unordered
markers, or a 1–3 digit ordinal before `. `. -/
def is_list_line (line : Str) : Bool :=
  let trimmed := trim_start line
  match trimmed with
  | c1 :: c2 :: _ =>
    if (c1 == '-' || c1 == '*' || c1 == '+') && c2 == ' ' then true
    else
      match findSeq (toStr ". ") trimmed with
      | some dot_pos =>
        if 0 < dot_pos ∧ dot_pos ≤ 3 then (trimmed.take dot_pos).all Char.isDigit
        else false
      | none => false
  | _ => false

/-- `BasicMarkdownParser::get_list_indent_level`: capped at 15. -/
def get_list_indent_level (line : Str) : Nat := (Gfm.indent_weight line / 2).min 15

def list_content (is_ordered : Bool) (trimmed : Str) : Str :=
  if is_ordered then
    match findSeq (toStr ". ") trimmed with
    | some pos => trimmed.drop (pos + 2)
    | none => []
  else trimmed.drop 2

/-- The item-collecting loop of `BasicMarkdownParser::parse_list`
(no task-list split). -/
def parse_list_loop (is_ordered : Bool) (base : Nat) : List Str → List BasicListItem × Nat
  | [] => ([], 0)
  | l :: rest =>
    if trimBoth l = [] then
      let next := parse_list_loop is_ordered base rest
      (next.1, next.2 + 1)
    else if ¬ is_list_line l then ([], 0)
    else
      let level := get_list_indent_level l - base
      let trimmed := trim_start l
      let content := list_content is_ordered trimmed
      let item : BasicListItem := ⟨process_inline_formatting (trimBoth content), level⟩
      let next := parse_list_loop is_ordered base rest
      (item :: next.1, next.2 + 1)

def parse_list (l : Str) (rest : List Str) : BasicToken × Nat :=
  let is_ordered := match (trim_start l).head? with | some c => c.isDigit | _ => false
  let base := get_list_indent_level l
  let run := parse_list_loop is_ordered base (l :: rest)
  (BasicToken.list run.1 is_ordered, run.2)

/-- `BasicMarkdownParser::parse_code_block`: same loop and same `consumed`
computation as the GFM version. -/
def parse_code_block (l : Str) (rest : List Str) : BasicToken × Nat :=
  let language :=
    if utf8Len l > 3 then
      let lang := trimBoth (l.drop 3)
      if lang = [] then none else some lang
    else none
  let run := code_block_loop [] rest
  let consumed := match run.2 with | some j => j + 2 | none => 1
  (BasicToken.code_block language run.1, consumed)

/-- `BasicMarkdownParser::is_horizontal_rule`. -/
def is_horizontal_rule (line : Str) : Bool :=
  let trimmed := trimBoth line
  if utf8Len trimmed < 3 then false
  else
    match trimmed.head? with
    | some c => if c == '-' || c == '*' then trimmed.all (· == c) else false
    | none => false

/-- The scanning loop of `BasicMarkdownParser::parse` (no tables, no alerts). -/
def tokenize : Nat → List Str → List BasicToken
  | 0, _ => []
  | _ + 1, [] => []
  | fuel + 1, l :: rest =>
    let line := trim_end l
    if trimBoth line = [] then tokenize fuel rest
    else if (toStr "```").isPrefixOf line then
      let run := parse_code_block l rest
      run.1 :: tokenize fuel ((l :: rest).drop run.2)
    else
      match parse_heading line with
      | some h => BasicToken.heading h.1 h.2 :: tokenize fuel rest
      | none =>
        if is_horizontal_rule line then BasicToken.horizontal_rule :: tokenize fuel rest
        else if is_list_line line then
          let run := parse_list l rest
          run.1 :: tokenize fuel ((l :: rest).drop run.2)
        else if (toStr "> ").isPrefixOf (trim_start line) then
          BasicToken.blockquote (process_inline_formatting ((trim_start line).drop 2))
            :: tokenize fuel rest
        else
          BasicToken.paragraph (process_inline_formatting line) :: tokenize fuel rest

def tokenize_lines (ls : List Str) : List BasicToken := tokenize (ls.length + 1) ls

/-- `BasicMarkdownParser::parse`. -/
def parse (markdown : Str) : List BasicToken :=
  if markdown = [] then [] else tokenize_lines (linesOf markdown)

end Basic

/-! ### Renderers -/

/-- Decimal digits of a heading level (Rust `format!` `{}` for `u8`). -/
def natStr (n : Nat) : Str := Nat.toDigits 10 n

namespace Gfm

/-- `get_alert_config`: css class, icon, and title per alert kind.  The icon
strings are the literal (mojibake) character sequences present in the source
file, given by code point. -/
def get_alert_config (t : AlertType) : Str × Str × Str :=
  match t with
  | AlertType.note =>
    (toStr "note",
     [Char.ofNat 0x201A, Char.ofNat 0xD1, Char.ofNat 0x3C0, Char.ofNat 0xD4,
      Char.ofNat 0x220F, Char.ofNat 0xE8], toStr "Note")
  | AlertType.tip =>
    (toStr "tip",
     [Char.ofNat 0xF8FF, Char.ofNat 0xFC, Char.ofNat 0xED, Char.ofNat 0xB0],
     toStr "Tip")
  | AlertType.important =>
    (toStr "important",
     [Char.ofNat 0x201A, Char.ofNat 0xF9, Char.ofNat 0xF3], toStr "Important")
  | AlertType.warning =>
    (toStr "warning",
     [Char.ofNat 0x201A, Char.ofNat 0xF6, Char.ofNat 0x2020, Char.ofNat 0xD4,
      Char.ofNat 0x220F, Char.ofNat 0xE8], toStr "Warning")
  | AlertType.caution =>
    (toStr "caution",
     [Char.ofNat 0x201A, Char.ofNat 0xF5, Char.ofNat 0xEE], toStr "Caution")

/-- `get_align_style`: a `style` attribute for an alignment looked up by
column index; out-of-range indices fall back to `Alignment::None`. -/
def get_align_style (alignments : List Alignment) (index : Nat) : Str :=
  match alignments.get? index with
  | some Alignment.left => toStr " style=\"text-align: left\""
  | some Alignment.center => toStr " style=\"text-align: center\""
  | some Alignment.right => toStr " style=\"text-align: right\""
  | some Alignment.none => []
  | none => []

/-- The `while current_level < item.level` loop of `render_gfm_list_items`:
open `k` nested `<ul>` wrappers, pushing each previous level. -/
def open_wrappers (k : Nat) (current : Nat) (stack : List Nat) : Str × Nat × List Nat :=
  match k with
  | 0 => ([], current, stack)
  | k + 1 =>
    let next := open_wrappers k (current + 1) (current :: stack)
    (toStr "<ul>" ++ next.1, next.2.1, next.2.2)

/-- The `while current_level > item.level` loop of `render_gfm_list_items`:
close wrappers while the stack allows, else break. -/
def close_wrappers (target : Nat) : Nat → List Nat → Str × Nat × List Nat
  | current, [] => ([], current, [])
  | current, s :: ss =>
    if target < current then
      let next := close_wrappers target (current - 1) ss
      (toStr "</ul>" ++ next.1, next.2.1, next.2.2)
    else ([], current, s :: ss)

/-- One `<li>` of `render_gfm_list_items`, with the task-list checkbox. -/
def render_li (item : GfmListItem) : Str :=
  match item.checked with
  | some true =>
    toStr "<li><input type=\"checkbox\" checked disabled> " ++ item.content ++ toStr "</li>"
  | some false =>
    toStr "<li><input type=\"checkbox\" disabled> " ++ item.content ++ toStr "</li>"
  | none => toStr "<li>" ++ item.content ++ toStr "</li>"

/-- The per-item loop of `render_gfm_list_items`. -/
def render_list_items_go : List GfmListItem → Nat → List Nat → Str × Nat
  | [], _, stack => ((stack.map (fun _ => toStr "</ul>")).flatten, 0)
  | item :: rest, current, stack =>
    let opened := open_wrappers (item.level - current) current stack
    let closed := close_wrappers item.level opened.2.1 opened.2.2
    let next := render_list_items_go rest closed.2.1 closed.2.2
    (opened.1 ++ closed.1 ++ render_li item ++ next.1, count_words item.content + next.2)

/-- `render_gfm_list_items`: `current_level` starts at the first item's level,
the stack starts empty, and any still-open wrappers are closed at the end. -/
def render_gfm_list_items (items : List GfmListItem) : Str × Nat :=
  match items with
  | [] => ([], 0)
  | first :: _ => render_list_items_go items first.level []

/-- The `<th>` loop of the table arm of `parse_gfm_markdown_to_html`. -/
def render_th_go (alignments : List Alignment) (i : Nat) : List Str → Str × Nat
  | [] => ([], 0)
  | h :: hs =>
    let next := render_th_go alignments (i + 1) hs
    (toStr "<th" ++ get_align_style alignments i ++ toStr ">" ++ h ++ toStr "</th>"
       ++ next.1, count_words h + next.2)

/-- The `<td>` loop over one data row. -/
def render_td_go (alignments : List Alignment) (i : Nat) : List Str → Str × Nat
  | [] => ([], 0)
  | c :: cs =>
    let next := render_td_go alignments (i + 1) cs
    (toStr "<td" ++ get_align_style alignments i ++ toStr ">" ++ c ++ toStr "</td>"
       ++ next.1, count_words c + next.2)

/-- The `<tr>` loop over the data rows. -/
def render_rows_go (alignments : List Alignment) : List (List Str) → Str × Nat
  | [] => ([], 0)
  | row :: rows =>
    let cells := render_td_go alignments 0 row
    let next := render_rows_go alignments rows
    (toStr "<tr>" ++ cells.1 ++ toStr "</tr>" ++ next.1, cells.2 + next.2)

/-- One iteration of the token loop of `parse_gfm_markdown_to_html`:
the html fragment appended for the token and the words added to the count. -/
def render_token (t : GfmToken) : Str × Nat :=
  match t with
  | GfmToken.heading level text =>
    (toStr "<h" ++ natStr level ++ toStr ">" ++ text ++ toStr "</h" ++ natStr level
       ++ toStr ">", count_words text)
  | GfmToken.paragraph text => (toStr "<p>" ++ text ++ toStr "</p>", count_words text)
  | GfmToken.code_block language code =>
    (match language with
     | some lang =>
       toStr "<pre><code class=\"language-" ++ lang ++ toStr "\">" ++ code
         ++ toStr "</code></pre>"
     | none => toStr "<pre><code>" ++ code ++ toStr "</code></pre>",
     count_words code)
  | GfmToken.list items ordered =>
    let body := render_gfm_list_items items
    ((if ordered then toStr "<ol>" else toStr "<ul>") ++ body.1
       ++ (if ordered then toStr "</ol>" else toStr "</ul>"), body.2)
  | GfmToken.table headers rows alignments =>
    let th := render_th_go alignments 0 headers
    let tr := render_rows_go alignments rows
    (toStr "<table><thead><tr>" ++ th.1 ++ toStr "</tr></thead>"
       ++ (if rows = [] then [] else toStr "<tbody>" ++ tr.1 ++ toStr "</tbody>")
       ++ toStr "</table>",
     th.2 + (if rows = [] then 0 else tr.2))
  | GfmToken.blockquote text =>
    (toStr "<blockquote><p>" ++ text ++ toStr "</p></blockquote>", count_words text)
  | GfmToken.alert ty content =>
    let cfg := get_alert_config ty
    (toStr "<div class=\"alert alert-" ++ cfg.1 ++ toStr "\"><div class=\"alert-icon\">"
       ++ cfg.2.1 ++ toStr "</div><div class=\"alert-content\"><div class=\"alert-title\">"
       ++ cfg.2.2 ++ toStr "</div><p>" ++ content ++ toStr "</p></div></div>",
     count_words content)
  | GfmToken.horizontal_rule => (toStr "<hr>", 0)

/-- The token loop of `parse_gfm_markdown_to_html`: html fragments are
appended in order and word counts accumulate. -/
def render_tokens : List GfmToken → Str × Nat
  | [] => ([], 0)
  | t :: ts =>
    let here := render_token t
    let next := render_tokens ts
    (here.1 ++ next.1, here.2 + next.2)

/-- `parse_gfm_markdown_to_html` (always returns `Ok`). -/
def parse_gfm_markdown_to_html (markdown : Str) : ParseResult :=
  let out := render_tokens (parse markdown)
  ⟨out.1, out.2, none⟩

end Gfm

namespace Basic

/-- The opening loop of `render_basic_list_items` when the level increases:
push a `</ul>` close tag per opened `<ul>`. -/
def open_wrappers (k : Nat) (stack : List Str) : Str × List Str :=
  match k with
  | 0 => ([], stack)
  | k + 1 =>
    let next := open_wrappers k (toStr "</ul>" :: stack)
    (toStr "<ul>" ++ next.1, next.2)

/-- The closing loop of `render_basic_list_items` when the level decreases:
emit `</li>` then pop a close tag when available. -/
def close_wrappers (k : Nat) (stack : List Str) : Str × List Str :=
  match k with
  | 0 => ([], stack)
  | k + 1 =>
    let step : Str × List Str :=
      match stack with
      | c :: ss => (toStr "</li>" ++ c, ss)
      | [] => (toStr "</li>", [])
    let next := close_wrappers k step.2
    (step.1 ++ next.1, next.2)

/-- The per-item loop of `render_basic_list_items`; `not_first` is `i > 0`.
After the loop the last `<li>` is closed and the remaining stack drained. -/
def render_list_items_go : List BasicListItem → Nat → List Str → Bool → Str × Nat
  | [], _, stack, _ => (toStr "</li>" ++ stack.flatten, 0)
  | item :: rest, current, stack, not_first =>
    let adj : Str × List Str :=
      if current < item.level then open_wrappers (item.level - current) stack
      else if item.level < current then close_wrappers (current - item.level) stack
      else if not_first then (toStr "</li>", stack) else ([], stack)
    let next := render_list_items_go rest item.level adj.2 true
    (adj.1 ++ toStr "<li>" ++ item.content ++ next.1, count_words item.content + next.2)

/-- `render_basic_list_items`: `current_level` starts at 0. -/
def render_basic_list_items (items : List BasicListItem) : Str × Nat :=
  if items = [] then ([], 0) else render_list_items_go items 0 [] false

/-- One iteration of the token loop of `parse_basic_markdown_to_html`. -/
def render_token (t : BasicToken) : Str × Nat :=
  match t with
  | BasicToken.heading level text =>
    (toStr "<h" ++ natStr level ++ toStr ">" ++ text ++ toStr "</h" ++ natStr level
       ++ toStr ">", count_words text)
  | BasicToken.paragraph text => (toStr "<p>" ++ text ++ toStr "</p>", count_words text)
  | BasicToken.code_block language code =>
    (match language with
     | some lang =>
       toStr "<pre><code class=\"language-" ++ lang ++ toStr "\">" ++ code
         ++ toStr "</code></pre>"
     | none => toStr "<pre><code>" ++ code ++ toStr "</code></pre>",
     count_words code)
  | BasicToken.list items ordered =>
    let body := render_basic_list_items items
    ((if ordered then toStr "<ol>" else toStr "<ul>") ++ body.1
       ++ (if ordered then toStr "</ol>" else toStr "</ul>"), body.2)
  | BasicToken.blockquote text =>
    (toStr "<blockquote><p>" ++ text ++ toStr "</p></blockquote>", count_words text)
  | BasicToken.horizontal_rule => (toStr "<hr>", 0)

def render_tokens : List BasicToken → Str × Nat
  | [] => ([], 0)
  | t :: ts =>
    let here := render_token t
    let next := render_tokens ts
    (here.1 ++ next.1, here.2 + next.2)

/-- `parse_basic_markdown_to_html` (always returns `Ok`). -/
def parse_basic_markdown_to_html (markdown : Str) : ParseResult :=
  let out := render_tokens (parse markdown)
  ⟨out.1, out.2, none⟩

end Basic

/-! ### The memoization cache of `GfmMarkdownParser::process_inline_formatting`

`hash_string` uses `std::collections::hash_map::DefaultHasher`, i.e.
SipHash-1-3 with both keys zero; hashing a `&str` feeds its UTF-8 bytes
followed by a `0xFF` marker byte.  All 64-bit arithmetic is over `Nat`
with explicit reduction modulo `2 ^ 64`. -/

def add64 (a b : Nat) : Nat := (a + b) % 2 ^ 64

def rotl64 (x r : Nat) : Nat := ((x <<< r) % 2 ^ 64) ||| (x >>> (64 - r))

structure SipState where
  v0 : Nat
  v1 : Nat
  v2 : Nat
  v3 : Nat

/-- One SipRound. -/
def sipRound (s : SipState) : SipState :=
  let v0 := add64 s.v0 s.v1
  let v1 := rotl64 s.v1 13
  let v1 := v1 ^^^ v0
  let v0 := rotl64 v0 32
  let v2 := add64 s.v2 s.v3
  let v3 := rotl64 s.v3 16
  let v3 := v3 ^^^ v2
  let v0 := add64 v0 v3
  let v3 := rotl64 v3 21
  let v3 := v3 ^^^ v0
  let v2 := add64 v2 v1
  let v1 := rotl64 v1 17
  let v1 := v1 ^^^ v2
  let v2 := rotl64 v2 32
  ⟨v0, v1, v2, v3⟩

/-- Little-endian word value of at most eight bytes. -/
def le64 : List Nat → Nat
  | [] => 0
  | b :: bs => b + 256 * le64 bs

/-- Absorb one message word with one compression round (`c = 1`). -/
def sipCompress (s : SipState) (m : Nat) : SipState :=
  let s := { s with v3 := s.v3 ^^^ m }
  let s := sipRound s
  { s with v0 := s.v0 ^^^ m }

/-- Absorb all full eight-byte blocks, returning the remainder bytes. -/
def sipBlocks : SipState → List Nat → SipState × List Nat
  | s, b0 :: b1 :: b2 :: b3 :: b4 :: b5 :: b6 :: b7 :: rest =>
    sipBlocks (sipCompress s (le64 [b0, b1, b2, b3, b4, b5, b6, b7])) rest
  | s, rest => (s, rest)

/-- SipHash-1-3 with both keys zero over a byte list. -/
def sipHash13 (msg : List Nat) : Nat :=
  let s0 : SipState :=
    ⟨0x736f6d6570736575, 0x646f72616e646f6d, 0x6c7967656e657261, 0x7465646279746573⟩
  let blocks := sipBlocks s0 msg
  let b := ((msg.length % 256) <<< 56) ||| le64 blocks.2
  let s := sipCompress blocks.1 b
  let s := { s with v2 := s.v2 ^^^ 0xff }
  let s := sipRound (sipRound (sipRound s))
  ((s.v0 ^^^ s.v1) ^^^ s.v2) ^^^ s.v3

/-- UTF-8 encoding of one character. -/
def utf8BytesChar (c : Char) : List Nat :=
  let n := c.toNat
  if n < 0x80 then [n]
  else if n < 0x800 then [0xC0 ||| (n >>> 6), 0x80 ||| (n &&& 0x3F)]
  else if n < 0x10000 then
    [0xE0 ||| (n >>> 12), 0x80 ||| ((n >>> 6) &&& 0x3F), 0x80 ||| (n &&& 0x3F)]
  else
    [0xF0 ||| (n >>> 18), 0x80 ||| ((n >>> 12) &&& 0x3F), 0x80 ||| ((n >>> 6) &&& 0x3F),
     0x80 ||| (n &&& 0x3F)]

def utf8Bytes (s : Str) : List Nat := (s.map utf8BytesChar).flatten

/-- `GfmMarkdownParser::hash_string`: `DefaultHasher` over a `&str` value. -/
def rust_hash (s : Str) : Nat := sipHash13 (utf8Bytes s ++ [0xFF])

namespace Gfm

/-- The `html_cache` of one parser instance: hash-keyed entries (most recent
first; `HashMap` iteration order never matters because keys are only ever
inserted when absent). -/
abbrev InlineCache := List (Nat × Str)

def cache_lookup (k : Nat) : InlineCache → Option Str
  | [] => none
  | e :: rest => if e.1 = k then some e.2 else cache_lookup k rest

/-- `process_inline_formatting` with its memoization layer: empty input
short-circuits, a hit returns the cached value, a miss computes the
cache-free result and inserts it while fewer than 256 entries are present. -/
def pf_call (text : Str) (cache : InlineCache) : Str × InlineCache :=
  if text = [] then ([], cache)
  else
    let h := rust_hash text
    match cache_lookup h cache with
    | some cached => (cached, cache)
    | none =>
      let result := process_inline_formatting text
      (result, if cache.length < 256 then (h, result) :: cache else cache)

/-- The cache contents after a sequence of formatting calls on a fresh
parser (the last call of the list is performed first). -/
def pf_run : List Str → InlineCache
  | [] => []
  | t :: ts => (pf_call t (pf_run ts)).2

end Gfm

/-! ### Specification-side definitions (stated from the spec's words, for
comparison with the source-derived definitions) -/

/-- Whether `pat` occurs as a contiguous subsequence of `s`. -/
def occurs_in (pat : Str) : Str → Bool
  | [] => pat.isPrefixOf []
  | c :: cs => pat.isPrefixOf (c :: cs) || occurs_in pat cs

/-- The maximal ASCII-whitespace-delimited runs of a string, in order
(the spec's "whitespace-delimited runs ... over every token's textual
content"). -/
def maximal_runs : Str → List Str
  | [] => []
  | c :: cs =>
    if is_ascii_whitespace c then maximal_runs cs
    else (c :: cs.takeWhile (fun x => !is_ascii_whitespace x))
      :: maximal_runs (cs.dropWhile (fun x => !is_ascii_whitespace x))
termination_by s => s.length
decreasing_by
  · simp
  · simpa using Nat.lt_succ_of_le (List.dropWhile_suffix _).length_le

/-- The number of maximal ASCII-whitespace-delimited runs. -/
def run_count (s : Str) : Nat := (maximal_runs s).length

/-- The spec's per-token word contribution: the number of maximal
whitespace-delimited runs in each piece of textual content — heading,
paragraph, list-item, blockquote and alert text, table header and data
cells, raw code-block content — and zero for a horizontal rule. -/
def token_words : Gfm.GfmToken → Nat
  | Gfm.GfmToken.heading _ text => run_count text
  | Gfm.GfmToken.paragraph text => run_count text
  | Gfm.GfmToken.code_block _ code => run_count code
  | Gfm.GfmToken.list items _ => (items.map (fun i => run_count i.content)).sum
  | Gfm.GfmToken.table headers rows _ =>
    (headers.map run_count).sum + (rows.map (fun row => (row.map run_count).sum)).sum
  | Gfm.GfmToken.blockquote text => run_count text
  | Gfm.GfmToken.alert _ content => run_count content
  | Gfm.GfmToken.horizontal_rule => 0

/-- The literal tag of each alert kind. -/
def tag_str : Gfm.AlertType → Str
  | Gfm.AlertType.note => toStr "[!NOTE]"
  | Gfm.AlertType.tip => toStr "[!TIP]"
  | Gfm.AlertType.important => toStr "[!IMPORTANT]"
  | Gfm.AlertType.warning => toStr "[!WARNING]"
  | Gfm.AlertType.caution => toStr "[!CAUTION]"

/-! ### C1: unterminated code fence -/

/-- **C1** (code bug evidence): on the document `"```\nhello"`, whose fence is
never closed, `parse_code_block` builds a `CodeBlock` containing `"hello"` yet
reports `consumed = 1`, so both tokenizers re-scan the absorbed line and emit
it again as a paragraph — the claimed "single CodeBlock token consuming every
line to end-of-input" is violated while the token's own `code` field shows the
intended consumption. -/
theorem c1_unterminated_fence_bug :
    Gfm.parse (toStr "```\nhello")
      = [Gfm.GfmToken.code_block none (toStr "hello"),
         Gfm.GfmToken.paragraph (toStr "hello")]
    ∧ Basic.parse (toStr "```\nhello")
      = [Basic.BasicToken.code_block none (toStr "hello"),
         Basic.BasicToken.paragraph (toStr "hello")]
    ∧ (Gfm.parse_code_block (toStr "```") [toStr "hello"]).2 = 1
    ∧ (Basic.parse_code_block (toStr "```") [toStr "hello"]).2 = 1 := by
  refine ⟨by decide, by decide, by decide, by decide⟩

/-! ### C2: unmatched inline delimiters -/

/-- **C2** (counterexample): formatting `"*abc"` yields just `"*"` — the
opening `*` is emitted literally, but the remaining input `abc`, consumed by
the failed search for a closing `*`, is dropped instead of being processed
and emitted as the claim states. -/
theorem c2_counterexample :
    Gfm.process_inline_formatting (toStr "*abc") = toStr "*"
    ∧ 'a' ∈ toStr "*abc"
    ∧ 'a' ∉ Gfm.process_inline_formatting (toStr "*abc") := by
  refine ⟨by decide, by decide, by decide⟩

/-! ### C3: list level stair-step -/

/-- **C3** (counterexample): `"- a\n    - b"` produces a list whose levels are
`[0, 2]` — the second item is two levels deeper than the first, violating the
claimed "at most +1 deeper than the previous item". -/
theorem c3_counterexample :
    Gfm.parse (toStr "- a\n    - b")
      = [Gfm.GfmToken.list
          [⟨toStr "a", 0, none⟩, ⟨toStr "b", 2, none⟩] false]
    ∧ ¬ (2 ≤ 0 + 1) := by
  refine ⟨by decide, by decide⟩

/-! ### C4: table separator validation -/

/-- **C4** (counterexample): the separator `":|-"` has the non-empty cell
`":"` with no dash, so the claim's "every non-empty cell contains at least
one `-`" fails — yet `is_table_separator` accepts it (one dash-bearing cell
suffices) and the document is parsed as a table rather than rejected. -/
theorem c4_counterexample :
    Gfm.is_table_separator (toStr ":|-") = true
    ∧ ¬ (∀ cell ∈ Gfm.pipe_cells (trimBoth (toStr ":|-")),
          trimBoth cell ≠ [] → (trimBoth cell).contains '-' = true)
    ∧ Gfm.parse (toStr "a|b\n:|-\nc|d")
        = [Gfm.GfmToken.table [toStr "a", toStr "b"] [[toStr "c", toStr "d"]]
            [Gfm.Alignment.none, Gfm.Alignment.none]] := by
  refine ⟨by decide, by decide, by decide⟩

/-! ### C5: cache transparency -/

/-- **C5** (counterexample): the distinct lines `"4g5shpw54bwxh"` and
`"vcfvwqxxityih"` collide under `DefaultHasher` (SipHash-1-3, zero keys).
A parser that has formatted the first line returns that first line's output
when asked to format the second — differing from what a freshly created
parser returns for the same input. -/
theorem c5_counterexample :
    rust_hash (toStr "4g5shpw54bwxh") = rust_hash (toStr "vcfvwqxxityih")
    ∧ toStr "4g5shpw54bwxh" ≠ toStr "vcfvwqxxityih"
    ∧ (Gfm.pf_call (toStr "vcfvwqxxityih")
        (Gfm.pf_call (toStr "4g5shpw54bwxh") []).2).1 = toStr "4g5shpw54bwxh"
    ∧ (Gfm.pf_call (toStr "vcfvwqxxityih") []).1 = toStr "vcfvwqxxityih" := by
  refine ⟨by decide, by decide, by decide, by decide⟩

/-! ### C8: column alignments -/

/-- **C8** (counterexample): in the accepted table below, the separator cell
`"::"` has both a leading and a trailing colon, so the claim assigns it
`Center`; the code assigns `None` because the cell contains no dash. -/
theorem c8_counterexample :
    Gfm.parse (toStr "a|b\n::|-\nc|d")
      = [Gfm.GfmToken.table [toStr "a", toStr "b"] [[toStr "c", toStr "d"]]
          [Gfm.Alignment.none, Gfm.Alignment.none]]
    ∧ (trimBoth (toStr "::")).head? = some ':'
    ∧ (trimBoth (toStr "::")).getLast? = some ':'
    ∧ Gfm.cell_alignment (toStr "::") = Gfm.Alignment.none
    ∧ Gfm.Alignment.none ≠ Gfm.Alignment.center := by
  refine ⟨by decide, by decide, by decide, by decide, by decide⟩

lemma utf8Len_append (a b : Str) : utf8Len (a ++ b) = utf8Len a + utf8Len b := by
  simp [utf8Len]

lemma utf8Len_cons (c : Char) (s : Str) : utf8Len (c :: s) = c.utf8Size + utf8Len s := by
  simp [utf8Len]

/-- A failed single-delimiter search within the cap consumes everything. -/
lemma extract_single_all_miss (d : Char) (cap : Nat) :
    ∀ s acc, d ∉ s → utf8Len acc + utf8Len s ≤ cap →
      extract_single d cap acc s = (none, []) := by
  intro s
  induction s with
  | nil => intro acc _ _; rfl
  | cons c cs ih =>
    intro acc hd hcap
    have hcd : ¬ (c == d) = true := by
      simp only [beq_iff_eq]
      exact fun h => hd (h ▸ List.mem_cons_self c cs)
    have hlen : utf8Len (acc ++ [c]) = utf8Len acc + c.utf8Size := by
      simp [utf8Len_append, utf8Len]
    have hcap2 : ¬ utf8Len (acc ++ [c]) > cap := by
      rw [hlen]
      rw [utf8Len_cons] at hcap
      omega
    simp only [extract_single, hcd, if_neg hcap2, if_false, Bool.false_eq_true]
    exact ih (acc ++ [c]) (fun h => hd (List.mem_cons_of_mem c h))
      (by rw [hlen, utf8Len_cons] at *; omega)

/-- A failed double-delimiter search within the cap consumes everything. -/
lemma extract_double_all_miss (d : Char) (cap : Nat) :
    ∀ s acc, d ∉ s → utf8Len acc + utf8Len s ≤ cap →
      extract_double d cap acc s = (none, []) := by
  intro s
  induction s with
  | nil => intro acc _ _; rfl
  | cons c cs ih =>
    intro acc hd hcap
    have hcd : ¬ (c == d) = true := by
      simp only [beq_iff_eq]
      exact fun h => hd (h ▸ List.mem_cons_self c cs)
    have hlen : utf8Len (acc ++ [c]) = utf8Len acc + c.utf8Size := by
      simp [utf8Len_append, utf8Len]
    have hcap2 : ¬ utf8Len (acc ++ [c]) > cap := by
      rw [hlen]
      rw [utf8Len_cons] at hcap
      omega
    simp only [extract_double, hcd, if_neg hcap2, if_false, Bool.false_eq_true]
    exact ih (acc ++ [c]) (fun h => hd (List.mem_cons_of_mem c h))
      (by rw [hlen, utf8Len_cons] at *; omega)

lemma scan_inline_nil (fuel : Nat) : Gfm.scan_inline (fuel + 1) [] = [] := by
  rw [Gfm.scan_inline]

lemma scan_step_tilde2 (f : Nat) (s : Str) :
    Gfm.scan_inline (f + 1) ('~' :: '~' :: s) =
      (match extract_double '~' 300 [] s with
       | (some content, rest) =>
         toStr "<del>" ++ content ++ toStr "</del>" ++ Gfm.scan_inline f rest
       | (none, rest) => toStr "~~" ++ Gfm.scan_inline f rest) := by
  rfl

lemma scan_step_star2 (f : Nat) (s : Str) :
    Gfm.scan_inline (f + 1) ('*' :: '*' :: s) =
      (match extract_double '*' 300 [] s with
       | (some content, rest) =>
         toStr "<strong>" ++ content ++ toStr "</strong>" ++ Gfm.scan_inline f rest
       | (none, rest) => toStr "**" ++ Gfm.scan_inline f rest) := by
  rfl

lemma scan_step_uscore2 (f : Nat) (s : Str) :
    Gfm.scan_inline (f + 1) ('_' :: '_' :: s) =
      (match extract_double '_' 300 [] s with
       | (some content, rest) =>
         toStr "<strong>" ++ content ++ toStr "</strong>" ++ Gfm.scan_inline f rest
       | (none, rest) => toStr "__" ++ Gfm.scan_inline f rest) := by
  rfl

lemma scan_step_backtick (f : Nat) (s : Str) :
    Gfm.scan_inline (f + 1) ('`' :: s) =
      (match extract_single '`' 200 [] s with
       | (some content, rest) =>
         toStr "<code>" ++ escape_html content ++ toStr "</code>" ++ Gfm.scan_inline f rest
       | (none, rest) => '`' :: Gfm.scan_inline f rest) := by
  rfl

lemma scan_step_star1 (f : Nat) (c : Char) (cs : Str) (h : ¬ (c = '*')) :
    Gfm.scan_inline (f + 1) ('*' :: c :: cs) =
      (match extract_single '*' 200 [] (c :: cs) with
       | (some content, rest) =>
         toStr "<em>" ++ content ++ toStr "</em>" ++ Gfm.scan_inline f rest
       | (none, rest) => '*' :: Gfm.scan_inline f rest) := by
  conv_lhs => rw [Gfm.scan_inline.eq_def]
  simp [h]

lemma scan_step_uscore1 (f : Nat) (c : Char) (cs : Str) (h : ¬ (c = '_')) :
    Gfm.scan_inline (f + 1) ('_' :: c :: cs) =
      (match extract_single '_' 200 [] (c :: cs) with
       | (some content, rest) =>
         toStr "<em>" ++ content ++ toStr "</em>" ++ Gfm.scan_inline f rest
       | (none, rest) => '_' :: Gfm.scan_inline f rest) := by
  conv_lhs => rw [Gfm.scan_inline.eq_def]
  simp [h]

/-- **C2** (amended): when an opening delimiter is not matched, the opening
characters are emitted literally, but scanning does not resume right after
them: the characters examined by the failed search are consumed and dropped.
In particular, when nothing after the opener contains the delimiter character
and the tail fits in the span cap, the formatter's whole output is just the
opening characters. -/
theorem c2_amended :
    (∀ s : Str, '*' ∉ s → utf8Len s ≤ 200 →
      Gfm.process_inline_formatting ('*' :: s) = toStr "*")
    ∧ (∀ s : Str, '_' ∉ s → utf8Len s ≤ 200 →
      Gfm.process_inline_formatting ('_' :: s) = toStr "_")
    ∧ (∀ s : Str, '`' ∉ s → utf8Len s ≤ 200 →
      Gfm.process_inline_formatting ('`' :: s) = toStr "`")
    ∧ (∀ s : Str, '*' ∉ s → utf8Len s ≤ 300 →
      Gfm.process_inline_formatting ('*' :: '*' :: s) = toStr "**")
    ∧ (∀ s : Str, '_' ∉ s → utf8Len s ≤ 300 →
      Gfm.process_inline_formatting ('_' :: '_' :: s) = toStr "__")
    ∧ (∀ s : Str, '~' ∉ s → utf8Len s ≤ 300 →
      Gfm.process_inline_formatting ('~' :: '~' :: s) = toStr "~~") := by
  have hmiss1 : ∀ (d : Char) (s : Str) (cap : Nat), d ∉ s → utf8Len s ≤ cap →
      extract_single d cap [] s = (none, []) := by
    intro d s cap h1 h2
    exact extract_single_all_miss d cap s [] h1 (by simpa [utf8Len] using h2)
  have hmiss2 : ∀ (d : Char) (s : Str) (cap : Nat), d ∉ s → utf8Len s ≤ cap →
      extract_double d cap [] s = (none, []) := by
    intro d s cap h1 h2
    exact extract_double_all_miss d cap s [] h1 (by simpa [utf8Len] using h2)
  refine ⟨?_, ?_, ?_, ?_, ?_, ?_⟩
  · intro s hs hcap
    match s with
    | [] => decide
    | c :: cs =>
      have hc : ¬ (c = '*') := fun h => hs (h ▸ List.mem_cons_self c cs)
      simp only [Gfm.process_inline_formatting, List.any_cons, Gfm.is_trigger]
      rw [if_neg (by simp)]
      rw [if_neg (by simp)]
      simp only [List.length_cons]
      rw [scan_step_star1 _ c cs hc, hmiss1 '*' (c :: cs) 200 hs hcap]
      show ('*' :: Gfm.scan_inline (cs.length + 1 + 1) []) = toStr "*"
      rw [scan_inline_nil]
      rfl
  · intro s hs hcap
    match s with
    | [] => decide
    | c :: cs =>
      have hc : ¬ (c = '_') := fun h => hs (h ▸ List.mem_cons_self c cs)
      simp only [Gfm.process_inline_formatting, List.any_cons, Gfm.is_trigger]
      rw [if_neg (by simp)]
      rw [if_neg (by simp)]
      simp only [List.length_cons]
      rw [scan_step_uscore1 _ c cs hc, hmiss1 '_' (c :: cs) 200 hs hcap]
      show ('_' :: Gfm.scan_inline (cs.length + 1 + 1) []) = toStr "_"
      rw [scan_inline_nil]
      rfl
  · intro s hs hcap
    simp only [Gfm.process_inline_formatting, List.any_cons, Gfm.is_trigger]
    rw [if_neg (by simp)]
    rw [if_neg (by simp)]
    simp only [List.length_cons]
    rw [scan_step_backtick, hmiss1 '`' s 200 hs hcap]
    show ('`' :: Gfm.scan_inline (s.length + 1) []) = toStr "`"
    rw [scan_inline_nil]
    rfl
  · intro s hs hcap
    simp only [Gfm.process_inline_formatting, List.any_cons, Gfm.is_trigger]
    rw [if_neg (by simp)]
    rw [if_neg (by simp)]
    simp only [List.length_cons]
    rw [scan_step_star2, hmiss2 '*' s 300 hs hcap]
    show (toStr "**" ++ Gfm.scan_inline (s.length + 1 + 1) []) = toStr "**"
    rw [scan_inline_nil]
    simp
  · intro s hs hcap
    simp only [Gfm.process_inline_formatting, List.any_cons, Gfm.is_trigger]
    rw [if_neg (by simp)]
    rw [if_neg (by simp)]
    simp only [List.length_cons]
    rw [scan_step_uscore2, hmiss2 '_' s 300 hs hcap]
    show (toStr "__" ++ Gfm.scan_inline (s.length + 1 + 1) []) = toStr "__"
    rw [scan_inline_nil]
    simp
  · intro s hs hcap
    simp only [Gfm.process_inline_formatting, List.any_cons, Gfm.is_trigger]
    rw [if_neg (by simp)]
    rw [if_neg (by simp)]
    simp only [List.length_cons]
    rw [scan_step_tilde2, hmiss2 '~' s 300 hs hcap]
    show (toStr "~~" ++ Gfm.scan_inline (s.length + 1 + 1) []) = toStr "~~"
    rw [scan_inline_nil]
    simp

/-- **C2** witness: the amended theorem applied at `s = "xyz"`. -/
theorem c2_amended_witness :
    Gfm.process_inline_formatting (toStr "*xyz") = toStr "*"
    ∧ Gfm.process_inline_formatting (toStr "~~xyz") = toStr "~~" :=
  ⟨c2_amended.1 (toStr "xyz") (by decide) (by decide),
   c2_amended.2.2.2.2.2 (toStr "xyz") (by decide) (by decide)⟩

/-! ### C3 infrastructure: a list line stays a list line when trailing
whitespace is restored (`parse_list` re-tests the raw line that the
tokenizer tested in `trim_end` form). -/

lemma dropWhile_append_of_ne_nil (p : Char → Bool) :
    ∀ (a b : Str), a.dropWhile p ≠ [] → (a ++ b).dropWhile p = a.dropWhile p ++ b := by
  intro a
  induction a with
  | nil => intro b h; simp [List.dropWhile] at h
  | cons c cs ih =>
    intro b h
    by_cases hc : p c
    · simp only [List.cons_append, List.dropWhile, hc] at h ⊢
      exact ih b h
    · simp only [List.cons_append, List.dropWhile, Bool.not_eq_true] at h ⊢
      simp [hc]

lemma self_eq_trim_end_append (l : Str) :
    ∃ w, l = trim_end l ++ w ∧ ∀ c ∈ w, is_whitespace c = true := by
  refine ⟨(l.reverse.takeWhile is_whitespace).reverse, ?_, ?_⟩
  · unfold trim_end
    have hsplit : l.reverse.takeWhile is_whitespace ++ l.reverse.dropWhile is_whitespace
        = l.reverse := List.takeWhile_append_dropWhile is_whitespace l.reverse
    calc l = l.reverse.reverse := by simp
      _ = (l.reverse.takeWhile is_whitespace ++ l.reverse.dropWhile is_whitespace).reverse := by
          rw [hsplit]
      _ = (l.reverse.dropWhile is_whitespace).reverse
            ++ (l.reverse.takeWhile is_whitespace).reverse := by
          rw [List.reverse_append]
  · intro c hc
    rw [List.mem_reverse] at hc
    exact List.mem_takeWhile_imp hc

lemma trim_start_eq_trimBoth_append (l : Str) :
    ∃ w, trim_start l = trimBoth l ++ w ∧ ∀ c ∈ w, is_whitespace c = true := by
  obtain ⟨w, hw, hws⟩ := self_eq_trim_end_append l
  by_cases hnil : (trim_end l).dropWhile is_whitespace = []
  · refine ⟨[], ?_, by simp⟩
    have h1 : trimBoth l = [] := hnil
    have h2 : trim_start l = [] := by
      unfold trim_start
      conv_lhs => rw [hw]
      rw [List.dropWhile_eq_nil_iff] at hnil ⊢
      intro x hx
      rcases List.mem_append.mp hx with h | h
      · exact hnil x h
      · exact hws x h
    rw [h1, h2]; rfl
  · refine ⟨w, ?_, hws⟩
    unfold trim_start trimBoth trim_start
    conv_lhs => rw [hw]
    exact dropWhile_append_of_ne_nil is_whitespace (trim_end l) w hnil

/-- Two equal-or-shorter patterns test identically on `t` and `t ++ w`. -/
lemma isPrefixOf_append_eq_of_le_length :
    ∀ (pat t w : Str), pat.length ≤ t.length →
      (pat.isPrefixOf (t ++ w)) = pat.isPrefixOf t := by
  intro pat
  induction pat with
  | nil => intro t w _; simp [List.isPrefixOf]
  | cons a ps ih =>
    intro t w hlen
    match t with
    | [] => simp at hlen
    | b :: ts =>
      simp only [List.cons_append, List.isPrefixOf]
      have hr : ps.isPrefixOf (ts ++ w) = ps.isPrefixOf ts := ih ts w (by simpa using hlen)
      show (a == b && ps.isPrefixOf (ts ++ w)) = (a == b && ps.isPrefixOf ts)
      rw [hr]

lemma isPrefixOf_append_right (pat t w : Str) (h : pat.isPrefixOf t = true) :
    pat.isPrefixOf (t ++ w) = true := by
  rw [List.isPrefixOf_iff_prefix] at h ⊢
  exact h.trans (t.prefix_append w)

lemma findSeq_dotspace_length {t : Str} {p : Nat} :
    findSeq (toStr ". ") t = some p → p + 2 ≤ t.length := by
  induction t generalizing p with
  | nil => intro h; simp [findSeq, toStr] at h
  | cons c cs ih =>
    intro h
    rw [findSeq] at h
    by_cases hpre : (toStr ". ").isPrefixOf (c :: cs) = true
    · rw [if_pos hpre] at h
      cases h
      match cs with
      | [] => simp [List.isPrefixOf, toStr] at hpre
      | x :: cs2 => simp
    · rw [if_neg hpre] at h
      rcases Option.map_eq_some'.mp h with ⟨q, hq, rfl⟩
      have := ih hq
      simp only [List.length_cons]
      omega

lemma findSeq_dotspace_append_ws (w : Str) :
    ∀ (t : Str) (p : Nat), findSeq (toStr ". ") t = some p →
      findSeq (toStr ". ") (t ++ w) = some p := by
  intro t
  induction t with
  | nil => intro p h; simp [findSeq, toStr] at h
  | cons c cs ih =>
    intro p h
    rw [findSeq] at h
    rw [List.cons_append, findSeq]
    by_cases hpre : (toStr ". ").isPrefixOf (c :: cs) = true
    · rw [if_pos hpre] at h
      rw [if_pos (by simpa using isPrefixOf_append_right _ _ w hpre)]
      exact h
    · rw [if_neg hpre] at h
      rcases Option.map_eq_some'.mp h with ⟨q, hq, rfl⟩
      have hlen := findSeq_dotspace_length hq
      have hpre2 : ¬ (toStr ". ").isPrefixOf (c :: (cs ++ w)) = true := by
        intro hcon
        apply hpre
        have : (toStr ". ").isPrefixOf ((c :: cs) ++ w) = true := by simpa using hcon
        rwa [isPrefixOf_append_eq_of_le_length (toStr ". ") (c :: cs) w
          (by simp [toStr]; omega)] at this
      rw [if_neg hpre2, ih q hq]
      rfl

lemma take_append_of_le (t w : Str) (p : Nat) (h : p ≤ t.length) :
    (t ++ w).take p = t.take p := by
  rw [List.take_append_eq_append_take]
  have : p - t.length = 0 := by omega
  simp [this]

/-- The bridging lemma: if the trailing-trimmed form of a line is a GFM list
line, so is the raw line, and the line is not blank. -/
lemma gfm_is_list_line_raw (l : Str) (h : Gfm.is_list_line (trim_end l) = true) :
    Gfm.is_list_line l = true ∧ trimBoth l ≠ [] := by
  obtain ⟨w, hw, hws⟩ := trim_start_eq_trimBoth_append l
  have hts : trim_start (trim_end l) = trimBoth l := rfl
  rw [Gfm.is_list_line, hts] at h
  rw [Gfm.is_list_line, hw]
  set t := trimBoth l with ht
  by_cases ha : ((toStr "- ").isPrefixOf t || (toStr "* ").isPrefixOf t
      || (toStr "+ ").isPrefixOf t) = true
  · constructor
    · have hA2 : ((toStr "- ").isPrefixOf (t ++ w) || (toStr "* ").isPrefixOf (t ++ w)
          || (toStr "+ ").isPrefixOf (t ++ w)) = true := by
        simp only [Bool.or_eq_true] at ha
        rcases ha with (h2 | h2) | h1
        · simp [isPrefixOf_append_right _ _ w h2]
        · simp [isPrefixOf_append_right _ _ w h2]
        · simp [isPrefixOf_append_right _ _ w h1]
      rw [if_pos hA2]
    · intro hnil
      rw [hnil] at ha
      simp [List.isPrefixOf, toStr] at ha
  · rw [if_neg ha] at h
    rcases hfind : findSeq (toStr ". ") t with _ | p
    · rw [hfind] at h; simp at h
    · rw [hfind] at h
      have hlen := findSeq_dotspace_length hfind
      have hb : ((toStr "- ").isPrefixOf (t ++ w) || (toStr "* ").isPrefixOf (t ++ w)
          || (toStr "+ ").isPrefixOf (t ++ w)) = false := by
        rw [isPrefixOf_append_eq_of_le_length (toStr "- ") t w (by simp [toStr]; omega),
            isPrefixOf_append_eq_of_le_length (toStr "* ") t w (by simp [toStr]; omega),
            isPrefixOf_append_eq_of_le_length (toStr "+ ") t w (by simp [toStr]; omega)]
        exact Bool.eq_false_iff.mpr ha
      constructor
      · rw [if_neg (by simp [hb])]
        rw [findSeq_dotspace_append_ws w t p hfind]
        change (if 0 < p ∧ p ≤ 4 then ((t ++ w).take p).all Char.isDigit else false) = true
        change (if 0 < p ∧ p ≤ 4 then (t.take p).all Char.isDigit else false) = true at h
        rw [take_append_of_le t w p (by omega)]
        exact h
      · intro hnil
        rw [hnil] at hfind
        simp [findSeq, toStr] at hfind

lemma gfm_parse_list_loop_cons (io : Bool) (base : Nat) (l : Str) (rest : List Str)
    (hnb : trimBoth l ≠ []) (hraw : Gfm.is_list_line l = true) :
    ∃ more n, Gfm.parse_list_loop io base (l :: rest)
      = (⟨Gfm.process_inline_formatting
            (trimBoth (Gfm.task_split (Gfm.list_content io (trim_start l))).2),
          Gfm.get_list_indent_level l - base,
          (Gfm.task_split (Gfm.list_content io (trim_start l))).1⟩ :: more, n) := by
  rw [Gfm.parse_list_loop]
  rw [if_neg hnb]
  rw [if_neg (by simp [hraw])]
  exact ⟨_, _, rfl⟩

/-- In the GFM dialect, a run starting at a line whose trimmed form is a list
line always begins with an item of relative level 0. -/
lemma gfm_parse_list_first (l : Str) (rest : List Str)
    (h : Gfm.is_list_line (trim_end l) = true) :
    ∀ items ord, (Gfm.parse_list l rest).1 = Gfm.GfmToken.list items ord →
      ∃ first more, items = first :: more ∧ first.level = 0 := by
  obtain ⟨hraw, hnb⟩ := gfm_is_list_line_raw l h
  intro items ord heq
  rw [Gfm.parse_list] at heq
  obtain ⟨more, n, hloop⟩ := gfm_parse_list_loop_cons
    (match (trim_start l).head? with | some c => c.isDigit | _ => false)
    (Gfm.get_list_indent_level l) l rest hnb hraw
  simp only [hloop] at heq
  rcases heq with ⟨⟩
  exact ⟨_, more, rfl, Nat.sub_self _⟩


/-- Basic-dialect bridging: a list line stays a list line when trailing
whitespace is restored. -/
lemma basic_is_list_line_raw (l : Str) (h : Basic.is_list_line (trim_end l) = true) :
    Basic.is_list_line l = true ∧ trimBoth l ≠ [] := by
  obtain ⟨w, hw, hws⟩ := trim_start_eq_trimBoth_append l
  have hts : trim_start (trim_end l) = trimBoth l := rfl
  rw [Basic.is_list_line, hts] at h
  rw [Basic.is_list_line, hw]
  generalize trimBoth l = t at h ⊢
  rcases t with _ | ⟨c1, t2⟩
  · simp at h
  · rcases t2 with _ | ⟨c2, ts⟩
    · simp at h
    · refine ⟨?_, by simp⟩
      simp only [List.cons_append]
      change (if ((c1 == '-' || c1 == '*' || c1 == '+') && c2 == ' ') = true then true
        else match findSeq (toStr ". ") (c1 :: c2 :: ts) with
          | some dot_pos =>
            if 0 < dot_pos ∧ dot_pos ≤ 3
            then ((c1 :: c2 :: ts).take dot_pos).all Char.isDigit else false
          | none => false) = true at h
      by_cases hm : ((c1 == '-' || c1 == '*' || c1 == '+') && c2 == ' ') = true
      · rw [if_pos hm]
      · rw [if_neg hm] at h ⊢
        rcases hfind : findSeq (toStr ". ") (c1 :: c2 :: ts) with _ | p
        · rw [hfind] at h; simp at h
        · rw [hfind] at h
          have hlen := findSeq_dotspace_length hfind
          have htr := findSeq_dotspace_append_ws w (c1 :: c2 :: ts) p hfind
          simp only [List.cons_append] at htr
          rw [htr]
          change (if 0 < p ∧ p ≤ 3
            then ((c1 :: c2 :: (ts ++ w)).take p).all Char.isDigit else false) = true
          change (if 0 < p ∧ p ≤ 3
            then ((c1 :: c2 :: ts).take p).all Char.isDigit else false) = true at h
          have hta : (c1 :: c2 :: (ts ++ w)).take p = (c1 :: c2 :: ts).take p := by
            have := take_append_of_le (c1 :: c2 :: ts) w p (by simp at hlen ⊢; omega)
            simpa using this
          rw [hta]
          exact h

lemma basic_parse_list_loop_cons (io : Bool) (base : Nat) (l : Str) (rest : List Str)
    (hnb : trimBoth l ≠ []) (hraw : Basic.is_list_line l = true) :
    ∃ more n, Basic.parse_list_loop io base (l :: rest)
      = (⟨Basic.process_inline_formatting
            (trimBoth (Basic.list_content io (trim_start l))),
          Basic.get_list_indent_level l - base⟩ :: more, n) := by
  rw [Basic.parse_list_loop]
  rw [if_neg hnb]
  rw [if_neg (by simp [hraw])]
  exact ⟨_, _, rfl⟩

lemma basic_parse_list_first (l : Str) (rest : List Str)
    (h : Basic.is_list_line (trim_end l) = true) :
    ∀ items ord, (Basic.parse_list l rest).1 = Basic.BasicToken.list items ord →
      ∃ first more, items = first :: more ∧ first.level = 0 := by
  obtain ⟨hraw, hnb⟩ := basic_is_list_line_raw l h
  intro items ord heq
  rw [Basic.parse_list] at heq
  obtain ⟨more, n, hloop⟩ := basic_parse_list_loop_cons
    (match (trim_start l).head? with | some c => c.isDigit | _ => false)
    (Basic.get_list_indent_level l) l rest hnb hraw
  simp only [hloop] at heq
  rcases heq with ⟨⟩
  exact ⟨_, more, rfl, Nat.sub_self _⟩

lemma gfm_parse_table_shape (l1 l2 : Str) (rest : List Str) (tok : Gfm.GfmToken) (n : Nat)
    (h : Gfm.parse_table l1 l2 rest = some (tok, n)) :
    ∃ hs rs as, tok = Gfm.GfmToken.table hs rs as := by
  rw [Gfm.parse_table] at h
  split at h
  · simp at h
  · dsimp only at h
    split at h
    · simp at h
    · rcases h with ⟨⟩
      exact ⟨_, _, _, rfl⟩

lemma gfm_parse_alert_shape (l : Str) (rest : List Str) (tok : Gfm.GfmToken) (n : Nat)
    (h : Gfm.parse_alert l rest = some (tok, n)) :
    ∃ ty c, tok = Gfm.GfmToken.alert ty c := by
  rw [Gfm.parse_alert] at h
  split at h
  · simp at h
  · dsimp only at h
    split at h
    · simp at h
    · split at h
      · simp at h
      · rcases h with ⟨⟩
        exact ⟨_, _, rfl⟩

lemma c3_gfm_aux : ∀ (fuel : Nat) (ls : List Str) (items : List Gfm.GfmListItem)
    (ordered : Bool), Gfm.GfmToken.list items ordered ∈ Gfm.tokenize fuel ls →
    ∃ first more, items = first :: more ∧ first.level = 0 := by
  intro fuel
  induction fuel with
  | zero => intro ls items ordered h; simp [Gfm.tokenize] at h
  | succ f ih =>
    intro ls items ordered h
    match ls with
    | [] => simp [Gfm.tokenize] at h
    | l :: rest =>
      rw [Gfm.tokenize.eq_def] at h
      dsimp only at h
      split at h
      · exact ih _ _ _ h
      · split at h
        · rcases List.mem_cons.mp h with heq | hmem
          · rw [Gfm.parse_code_block] at heq
            simp at heq
          · exact ih _ _ _ hmem
        · split at h
          case _ tok consumed heq =>
            rcases List.mem_cons.mp h with heq2 | hmem
            · split at heq
              · split at heq
                case _ l2 r2 =>
                  obtain ⟨hs, rs, as, rfl⟩ := gfm_parse_table_shape _ _ _ _ _ heq
                  simp at heq2
                · simp at heq
              · simp at heq
            · exact ih _ _ _ hmem
          case _ heq =>
            split at h
            case _ hd hhd =>
              rcases List.mem_cons.mp h with heq2 | hmem
              · simp at heq2
              · exact ih _ _ _ hmem
            case _ hhd =>
              split at h
              · rcases List.mem_cons.mp h with heq2 | hmem
                · simp at heq2
                · exact ih _ _ _ hmem
              · split at h
                case _ hlist =>
                  rcases List.mem_cons.mp h with heq2 | hmem
                  · exact gfm_parse_list_first l rest hlist items ordered heq2.symm
                  · exact ih _ _ _ hmem
                case _ hlist =>
                  split at h
                  · split at h
                    case _ tok consumed halert =>
                      rcases List.mem_cons.mp h with heq2 | hmem
                      · obtain ⟨ty, c, rfl⟩ := gfm_parse_alert_shape _ _ _ _ halert
                        simp at heq2
                      · exact ih _ _ _ hmem
                    case _ =>
                      rcases List.mem_cons.mp h with heq2 | hmem
                      · simp at heq2
                      · exact ih _ _ _ hmem
                  · rcases List.mem_cons.mp h with heq2 | hmem
                    · simp at heq2
                    · exact ih _ _ _ hmem

lemma c3_basic_aux : ∀ (fuel : Nat) (ls : List Str) (items : List Basic.BasicListItem)
    (ordered : Bool), Basic.BasicToken.list items ordered ∈ Basic.tokenize fuel ls →
    ∃ first more, items = first :: more ∧ first.level = 0 := by
  intro fuel
  induction fuel with
  | zero => intro ls items ordered h; simp [Basic.tokenize] at h
  | succ f ih =>
    intro ls items ordered h
    match ls with
    | [] => simp [Basic.tokenize] at h
    | l :: rest =>
      rw [Basic.tokenize.eq_def] at h
      dsimp only at h
      split at h
      · exact ih _ _ _ h
      · split at h
        · rcases List.mem_cons.mp h with heq | hmem
          · rw [Basic.parse_code_block] at heq
            simp at heq
          · exact ih _ _ _ hmem
        · split at h
          case _ hd hhd =>
            rcases List.mem_cons.mp h with heq2 | hmem
            · simp at heq2
            · exact ih _ _ _ hmem
          case _ hhd =>
            split at h
            · rcases List.mem_cons.mp h with heq2 | hmem
              · simp at heq2
              · exact ih _ _ _ hmem
            · split at h
              case _ hlist =>
                rcases List.mem_cons.mp h with heq2 | hmem
                · exact basic_parse_list_first l rest hlist items ordered heq2.symm
                · exact ih _ _ _ hmem
              case _ hlist =>
                split at h
                · rcases List.mem_cons.mp h with heq2 | hmem
                  · simp at heq2
                  · exact ih _ _ _ hmem
                · rcases List.mem_cons.mp h with heq2 | hmem
                  · simp at heq2
                  · exact ih _ _ _ hmem

/-- **C3** (amended): in both dialects every `List` token's item levels are
non-negative (they are natural numbers) and the first item's level is 0 (the
first line's own indentation is the base that is subtracted).  The claim's
"at most +1 deeper than the previous item" bound does not hold on the code
(see the counterexample): a deeper item may jump by several levels at once. -/
theorem c3_amended :
    (∀ doc items ordered, Gfm.GfmToken.list items ordered ∈ Gfm.parse doc →
      ∃ first more, items = first :: more ∧ first.level = 0)
    ∧ (∀ doc items ordered, Basic.BasicToken.list items ordered ∈ Basic.parse doc →
      ∃ first more, items = first :: more ∧ first.level = 0) := by
  constructor
  · intro doc items ordered h
    rw [Gfm.parse] at h
    split at h
    · simp at h
    · exact c3_gfm_aux _ _ _ _ h
  · intro doc items ordered h
    rw [Basic.parse] at h
    split at h
    · simp at h
    · exact c3_basic_aux _ _ _ _ h

/-- **C3** witness: the amended theorem applied to the document
`"- a\n    - b"`. -/
theorem c3_amended_witness :
    ∃ first more,
      ([⟨toStr "a", 0, none⟩, ⟨toStr "b", 2, none⟩] : List Gfm.GfmListItem)
        = first :: more ∧ first.level = 0 :=
  c3_amended.1 (toStr "- a\n    - b") _ false (by decide)

lemma cache_lookup_mem : ∀ (c : Gfm.InlineCache) (k : Nat) (v : Str),
    Gfm.cache_lookup k c = some v → (k, v) ∈ c := by
  intro c
  induction c with
  | nil => intro k v h; simp [Gfm.cache_lookup] at h
  | cons e rest ih =>
    intro k v h
    rw [Gfm.cache_lookup] at h
    split at h
    case _ hk =>
      rcases h with ⟨⟩
      rw [← hk, Prod.mk.eta]
      exact List.mem_cons_self _ _
    case _ hk =>
      right
      exact ih k v h

/-- Every cache entry reachable from a fresh parser is the hash of some
formatted line paired with that line's cache-free formatting result. -/
lemma pf_run_mem : ∀ (calls : List Str) (e : Nat × Str), e ∈ Gfm.pf_run calls →
    ∃ s, s ∈ calls ∧ e = (rust_hash s, Gfm.process_inline_formatting s) := by
  intro calls
  induction calls with
  | nil => intro e h; simp [Gfm.pf_run] at h
  | cons t ts ih =>
    intro e h
    rw [Gfm.pf_run, Gfm.pf_call] at h
    split at h
    · obtain ⟨s, hs, he⟩ := ih e h
      exact ⟨s, List.mem_cons_of_mem t hs, he⟩
    · dsimp only at h
      split at h
      · obtain ⟨s, hs, he⟩ := ih e h
        exact ⟨s, List.mem_cons_of_mem t hs, he⟩
      · dsimp only at h
        split at h
        · rcases List.mem_cons.mp h with heq | hmem
          · exact ⟨t, List.mem_cons_self t ts, heq⟩
          · obtain ⟨s, hs, he⟩ := ih e hmem
            exact ⟨s, List.mem_cons_of_mem t hs, he⟩
        · obtain ⟨s, hs, he⟩ := ih e h
          exact ⟨s, List.mem_cons_of_mem t hs, he⟩

/-- **C5** (amended): the memoized formatter is transparent — it returns
exactly what a freshly created parser would return — provided no previously
formatted line collides with the query under the 64-bit line hash; and two
back-to-back calls for the same line always return identical output.  The
unconditional claim fails because `DefaultHasher` collisions exist (see the
counterexample). -/
theorem c5_amended :
    (∀ (prev : List Str) (t : Str),
      (∀ s ∈ prev, rust_hash s = rust_hash t → s = t) →
      (Gfm.pf_call t (Gfm.pf_run prev)).1 = Gfm.process_inline_formatting t)
    ∧ (∀ (t : Str) (cache : Gfm.InlineCache),
      (Gfm.pf_call t (Gfm.pf_call t cache).2).1 = (Gfm.pf_call t cache).1) := by
  constructor
  · intro prev t hcoll
    rw [Gfm.pf_call]
    split
    case _ ht => rw [ht]; rfl
    case _ ht =>
      dsimp only
      rcases hlook : Gfm.cache_lookup (rust_hash t) (Gfm.pf_run prev) with _ | v
      · rfl
      · dsimp only
        obtain ⟨s, hs, he⟩ := pf_run_mem prev (rust_hash t, v) (cache_lookup_mem _ _ _ hlook)
        obtain ⟨h1, h2⟩ := Prod.mk.injEq .. |>.mp he
        rw [h2, hcoll s hs h1.symm]
  · intro t cache
    by_cases ht : t = []
    · simp [Gfm.pf_call, ht]
    · rcases hlook : Gfm.cache_lookup (rust_hash t) cache with _ | v
      · by_cases hroom : cache.length < 256
        · simp only [Gfm.pf_call, if_neg ht, hlook, if_pos hroom]
          simp [Gfm.cache_lookup]
        · simp only [Gfm.pf_call, if_neg ht, hlook, if_neg hroom]
      · simp only [Gfm.pf_call, if_neg ht, hlook]

/-- **C5** witness: the amended theorem applied to a parser that has
formatted `"hello"` and is asked for `"world"` (no hash collision). -/
theorem c5_amended_witness :
    (Gfm.pf_call (toStr "world") (Gfm.pf_run [toStr "hello"])).1
      = Gfm.process_inline_formatting (toStr "world") :=
  c5_amended.1 [toStr "hello"] (toStr "world") (by decide)

/-! ### C6 infrastructure: `count_words` counts maximal runs, and the
renderer accumulates exactly the per-token word counts. -/

lemma count_words_go_runs : ∀ (s : Str),
    count_words_go false s = (maximal_runs s).length
    ∧ count_words_go true s
        = (maximal_runs (s.dropWhile (fun x => !is_ascii_whitespace x))).length := by
  intro s
  induction s with
  | nil => simp [count_words_go, maximal_runs, List.dropWhile]
  | cons c cs ih =>
    by_cases hc : is_ascii_whitespace c = true
    · constructor
      · rw [count_words_go, if_pos hc, maximal_runs, if_pos hc]
        exact ih.1
      · rw [count_words_go, if_pos hc]
        have hdw : (c :: cs).dropWhile (fun x => !is_ascii_whitespace x) = c :: cs := by
          rw [List.dropWhile_cons]
          simp [hc]
        rw [hdw, maximal_runs, if_pos hc]
        exact ih.1
    · have hdw : (c :: cs).dropWhile (fun x => !is_ascii_whitespace x)
          = cs.dropWhile (fun x => !is_ascii_whitespace x) := by
        rw [List.dropWhile_cons]
        simp [hc]
      constructor
      · rw [count_words_go, if_neg hc, if_neg (by simp)]
        rw [maximal_runs, if_neg hc]
        simp only [List.length_cons]
        rw [ih.2]
      · rw [count_words_go, if_neg hc, if_pos rfl, hdw]
        exact ih.2

lemma count_words_eq_run_count : ∀ s : Str, count_words s = run_count s := by
  intro s
  match s with
  | [] => simp [count_words, run_count, maximal_runs]
  | c :: cs =>
    rw [count_words, if_neg (by simp), run_count]
    exact (count_words_go_runs (c :: cs)).1

lemma count_words_fun_eq : count_words = run_count := funext count_words_eq_run_count

lemma render_list_items_go_words : ∀ (items : List Gfm.GfmListItem) (cur : Nat)
    (stack : List Nat), (Gfm.render_list_items_go items cur stack).2
      = (items.map (fun i => count_words i.content)).sum := by
  intro items
  induction items with
  | nil => intro cur stack; simp [Gfm.render_list_items_go]
  | cons item rest ih =>
    intro cur stack
    rw [Gfm.render_list_items_go]
    simp only [List.map_cons, List.sum_cons]
    rw [ih]

lemma render_gfm_list_items_words (items : List Gfm.GfmListItem) :
    (Gfm.render_gfm_list_items items).2
      = (items.map (fun i => count_words i.content)).sum := by
  match items with
  | [] => rfl
  | first :: rest => exact render_list_items_go_words (first :: rest) first.level []

lemma render_th_go_words : ∀ (hs : List Str) (aligns : List Gfm.Alignment) (i : Nat),
    (Gfm.render_th_go aligns i hs).2 = (hs.map count_words).sum := by
  intro hs
  induction hs with
  | nil => intro aligns i; rfl
  | cons h rest ih =>
    intro aligns i
    rw [Gfm.render_th_go]
    simp only [List.map_cons, List.sum_cons]
    rw [ih]

lemma render_td_go_words : ∀ (cs : List Str) (aligns : List Gfm.Alignment) (i : Nat),
    (Gfm.render_td_go aligns i cs).2 = (cs.map count_words).sum := by
  intro cs
  induction cs with
  | nil => intro aligns i; rfl
  | cons c rest ih =>
    intro aligns i
    rw [Gfm.render_td_go]
    simp only [List.map_cons, List.sum_cons]
    rw [ih]

lemma render_rows_go_words : ∀ (rows : List (List Str)) (aligns : List Gfm.Alignment),
    (Gfm.render_rows_go aligns rows).2
      = (rows.map (fun row => (row.map count_words).sum)).sum := by
  intro rows
  induction rows with
  | nil => intro aligns; rfl
  | cons row rest ih =>
    intro aligns
    rw [Gfm.render_rows_go]
    simp only [List.map_cons, List.sum_cons]
    rw [ih, render_td_go_words]

lemma render_token_words (t : Gfm.GfmToken) :
    (Gfm.render_token t).2 = token_words t := by
  match t with
  | Gfm.GfmToken.heading level text => simp [Gfm.render_token, token_words, count_words_eq_run_count]
  | Gfm.GfmToken.paragraph text => simp [Gfm.render_token, token_words, count_words_eq_run_count]
  | Gfm.GfmToken.code_block lang code =>
    simp [Gfm.render_token, token_words, count_words_eq_run_count]
  | Gfm.GfmToken.list items ordered =>
    show (Gfm.render_gfm_list_items items).2 = _
    rw [render_gfm_list_items_words, token_words, count_words_fun_eq]
  | Gfm.GfmToken.table headers rows aligns =>
    show (Gfm.render_th_go aligns 0 headers).2
        + (if rows = [] then 0 else (Gfm.render_rows_go aligns rows).2) = _
    rw [render_th_go_words, token_words, count_words_fun_eq]
    by_cases hrows : rows = []
    · simp [hrows]
    · rw [if_neg hrows, render_rows_go_words, count_words_fun_eq]
  | Gfm.GfmToken.blockquote text => simp [Gfm.render_token, token_words, count_words_eq_run_count]
  | Gfm.GfmToken.alert ty content =>
    show count_words content = _
    rw [token_words, count_words_eq_run_count]
  | Gfm.GfmToken.horizontal_rule => rfl

lemma render_tokens_words : ∀ (ts : List Gfm.GfmToken),
    (Gfm.render_tokens ts).2 = (ts.map token_words).sum := by
  intro ts
  induction ts with
  | nil => rfl
  | cons t rest ih =>
    rw [Gfm.render_tokens]
    simp only [List.map_cons, List.sum_cons]
    rw [ih, render_token_words]

/-- **C6**: the GFM entry point's `word_count` is exactly the sum, over the
emitted tokens, of the number of maximal ASCII-whitespace-delimited runs in
each token's textual content (headings, paragraphs, list items, blockquotes,
alerts, table headers and data cells, raw code-block content), with
`HorizontalRule` contributing zero; and `count_words` itself counts exactly
the maximal whitespace-delimited runs of a string. -/
theorem c6_word_count :
    (∀ doc, (Gfm.parse_gfm_markdown_to_html doc).word_count
      = ((Gfm.parse doc).map token_words).sum)
    ∧ (∀ s : Str, count_words s = (maximal_runs s).length) := by
  constructor
  · intro doc
    rw [Gfm.parse_gfm_markdown_to_html]
    exact render_tokens_words (Gfm.parse doc)
  · exact count_words_eq_run_count

/-! ### C7 infrastructure: the `#`-counting loop. -/

lemma heading_loop_hashes (rest : Str) : ∀ (k level : Nat), level + k ≤ 6 →
    heading_level_loop level (List.replicate k '#' ++ ' ' :: rest)
      = some (level + k) := by
  intro k
  induction k with
  | zero =>
    intro level h
    simp [heading_level_loop]
  | succ k ih =>
    intro level h
    simp only [List.replicate_succ, List.cons_append, List.append_eq, heading_level_loop]
    rw [if_pos (by simp; omega)]
    rw [ih (level + 1) (by omega)]
    congr 1
    omega

lemma heading_loop_inv : ∀ (s : Str) (level k : Nat), level ≤ 6 →
    heading_level_loop level s = some k →
    level ≤ k ∧ k ≤ 6 ∧
      (s.take (k - level + 1) = List.replicate (k - level) '#' ++ [' ']
        ∨ s = List.replicate (k - level) '#') := by
  intro s
  induction s with
  | nil =>
    intro level k h6 h
    rw [heading_level_loop] at h
    rcases h with ⟨⟩
    exact ⟨le_refl _, h6, Or.inr (by simp)⟩
  | cons c cs ih =>
    intro level k h6 h
    rw [heading_level_loop] at h
    split at h
    case _ hcond =>
      have hc : c = '#' := by
        have := (Bool.and_eq_true _ _).mp hcond
        simpa using this.1
      have hlt : level < 6 := by
        have := (Bool.and_eq_true _ _).mp hcond
        simpa using this.2
      obtain ⟨h1, h2, h3⟩ := ih (level + 1) k (by omega) h
      refine ⟨by omega, h2, ?_⟩
      have hke : k - level = (k - (level + 1)) + 1 := by omega
      rcases h3 with h3 | h3
      · left
        rw [hke, List.replicate_succ, List.cons_append, hc]
        rw [show k - (level + 1) + 1 + 1 = (k - (level + 1) + 1) + 1 from rfl]
        rw [List.take_succ_cons, h3]
      · right
        rw [hke, List.replicate_succ, hc, h3]
    case _ =>
      split at h
      case _ hsp =>
        rcases h with ⟨⟩
        refine ⟨le_refl _, h6, Or.inl ?_⟩
        have hc : c = ' ' := by simpa using hsp
        simp [Nat.sub_self, hc]
      case _ => exact absurd h (by simp)

/-- **C7**: a line yields a heading exactly when it begins with one to six
`#` characters immediately followed by a space and has non-empty trimmed text
after the hash run; seven or more leading `#` never yield a heading (such a
line renders as a paragraph); and a level-`k` heading renders exactly as
`<hk>text</hk>`. -/
theorem c7_heading :
    (∀ (line : Str) (k : Nat) (t : Str),
      parse_heading line = some (k, t) ↔
        (1 ≤ k ∧ k ≤ 6 ∧ line.take (k + 1) = List.replicate k '#' ++ [' ']
          ∧ t = trimBoth (line.drop k) ∧ t ≠ []))
    ∧ (∀ line : Str, line.take 7 = List.replicate 7 '#' → parse_heading line = none)
    ∧ (∀ (k : Nat) (t : Str), Gfm.render_token (Gfm.GfmToken.heading k t)
        = (toStr "<h" ++ natStr k ++ toStr ">" ++ t ++ toStr "</h" ++ natStr k
            ++ toStr ">", count_words t))
    ∧ Gfm.parse_gfm_markdown_to_html (toStr "####### seven")
        = ⟨toStr "<p>####### seven</p>", 2, none⟩
    ∧ Basic.parse_basic_markdown_to_html (toStr "####### seven")
        = ⟨toStr "<p>####### seven</p>", 2, none⟩ := by
  have hmain : ∀ (line : Str) (k : Nat) (t : Str),
      parse_heading line = some (k, t) ↔
        (1 ≤ k ∧ k ≤ 6 ∧ line.take (k + 1) = List.replicate k '#' ++ [' ']
          ∧ t = trimBoth (line.drop k) ∧ t ≠ []) := by
    intro line k t
    constructor
    · intro h
      rw [parse_heading] at h
      split at h
      case _ hstart =>
        rcases hloop : heading_level_loop 0 line with _ | level
        · rw [hloop] at h; simp at h
        · rw [hloop] at h
          dsimp only at h
          split at h
          case _ => simp at h
          case _ hk6 =>
            by_cases hne : trimBoth (line.drop level) = []
            · rw [if_pos hne] at h; simp at h
            · rw [if_neg hne] at h
              obtain ⟨hkl, htl⟩ := Prod.mk.injEq .. |>.mp (Option.some.inj h)
              subst hkl
              subst htl
              obtain ⟨-, h2, h3⟩ := heading_loop_inv line 0 level (by omega) hloop
              simp only [Nat.sub_zero] at h3
              have hk1 : 1 ≤ level := by
                rcases Nat.eq_zero_or_pos level with h0 | h0
                · exact absurd (by simp [h0]) hk6
                · exact h0
              rcases h3 with h3 | h3
              · exact ⟨hk1, h2, h3, rfl, hne⟩
              · exfalso
                apply hne
                have hdrop : line.drop level = [] := by
                  rw [h3]
                  exact List.drop_eq_nil_of_le (by simp)
                rw [hdrop]
                rfl
      case _ => simp at h
    · rintro ⟨hk1, hk6, htake, ht, hne⟩
      have hline : line = List.replicate k '#' ++ ' ' :: line.drop (k + 1) := by
        conv_lhs => rw [← List.take_append_drop (k + 1) line]
        rw [htake]
        simp
      rw [parse_heading]
      have hstart : (match line.head? with | some c => c == '#' | _ => false) = true := by
        rw [hline]
        match k, hk1 with
        | k + 1, _ => simp [List.replicate_succ]
      rw [if_pos hstart]
      conv_lhs => rw [hline]
      rw [show heading_level_loop 0 (List.replicate k '#' ++ ' ' :: line.drop (k + 1))
            = some k from by simpa using heading_loop_hashes (line.drop (k + 1)) k 0 (by omega)]
      dsimp only
      rw [if_neg (by simp; omega)]
      rw [← hline]
      rw [if_neg (by rw [← ht]; simpa using hne)]
      rw [← ht]
  refine ⟨hmain, ?_, ?_, ?_, ?_⟩
  · intro line htake
    have hline : line = List.replicate 7 '#' ++ line.drop 7 := by
      conv_lhs => rw [← List.take_append_drop 7 line]
      rw [htake]
    rw [parse_heading, hline]
    simp [heading_level_loop, List.replicate_succ]
  · intro k t; rfl
  · decide
  · decide

/-- **C7** witness: eight leading hashes never parse as a heading, and
`"## Hi"` parses at level 2 via the characterization. -/
theorem c7_heading_witness :
    parse_heading (toStr "########x") = none
    ∧ parse_heading (toStr "## Hi") = some (2, toStr "Hi") :=
  ⟨c7_heading.2.1 (toStr "########x") (by decide),
   (c7_heading.1 (toStr "## Hi") 2 (toStr "Hi")).mpr (by decide)⟩

/-! ### C4 infrastructure: the separator-cell loop. -/

lemma separator_loop_spec : ∀ (cells : List Str) (found : Bool),
    Gfm.separator_loop cells found = true ↔
      ((∀ cell ∈ cells, trimBoth cell ≠ [] →
          ∀ c ∈ trimBoth cell, c = ':' ∨ c = '-' ∨ c = ' ')
        ∧ (found = true ∨ ∃ cell ∈ cells, trimBoth cell ≠ []
            ∧ (trimBoth cell).contains '-' = true)) := by
  intro cells
  induction cells with
  | nil => intro found; simp [Gfm.separator_loop]
  | cons cell cs ih =>
    intro found
    rw [Gfm.separator_loop]
    by_cases hempty : trimBoth cell = []
    · rw [if_pos hempty, ih]
      constructor
      · rintro ⟨h1, h2⟩
        refine ⟨?_, ?_⟩
        · intro c hc hne
          rcases List.mem_cons.mp hc with rfl | hc2
          · exact absurd hempty hne
          · exact h1 c hc2 hne
        · rcases h2 with h2 | ⟨c, hc, hcc⟩
          · exact Or.inl h2
          · exact Or.inr ⟨c, List.mem_cons_of_mem _ hc, hcc⟩
      · rintro ⟨h1, h2⟩
        refine ⟨fun c hc hne => h1 c (List.mem_cons_of_mem _ hc) hne, ?_⟩
        rcases h2 with h2 | ⟨c, hc, hne, hcc⟩
        · exact Or.inl h2
        · rcases List.mem_cons.mp hc with rfl | hc2
          · exact absurd hempty hne
          · exact Or.inr ⟨c, hc2, hne, hcc⟩
    · rw [if_neg hempty]
      by_cases hvalid : (trimBoth cell).all (fun c => c == ':' || c == '-' || c == ' ') = true
      · rw [if_neg (not_not_intro hvalid), ih]
        constructor
        · rintro ⟨h1, h2⟩
          refine ⟨?_, ?_⟩
          · intro c hc hne
            rcases List.mem_cons.mp hc with rfl | hc2
            · intro ch hch
              have := (List.all_eq_true.mp hvalid) ch hch
              have h2 := by simpa using this
              tauto
            · exact h1 c hc2 hne
          · rcases h2 with h2 | ⟨c, hc, hprops⟩
            · simp only [Bool.or_eq_true] at h2
              rcases h2 with h2 | h2
              · exact Or.inl h2
              · exact Or.inr ⟨cell, List.mem_cons_self _ _, hempty, h2⟩
            · exact Or.inr ⟨c, List.mem_cons_of_mem _ hc, hprops⟩
        · rintro ⟨h1, h2⟩
          refine ⟨fun c hc => h1 c (List.mem_cons_of_mem _ hc), ?_⟩
          rcases h2 with h2 | ⟨c, hc, hne, hcc⟩
          · exact Or.inl (by simp [h2])
          · rcases List.mem_cons.mp hc with rfl | hc2
            · exact Or.inl (by simp only [Bool.or_eq_true]; exact Or.inr hcc)
            · exact Or.inr ⟨c, hc2, hne, hcc⟩
      · rw [if_pos hvalid]
        constructor
        · intro hcon; exact absurd hcon (by simp)
        · rintro ⟨h1, -⟩
          exfalso
          apply hvalid
          rw [List.all_eq_true]
          intro ch hch
          rcases h1 cell (List.mem_cons_self _ _) hempty ch hch with h | h | h <;> simp [h]

lemma parse_table_none_of_sep_false (l1 l2 : Str) (rest : List Str)
    (h : Gfm.is_table_separator l2 = false) :
    Gfm.parse_table l1 l2 rest = none := by
  rw [Gfm.parse_table, if_pos (by simp [h])]

/-! ### C4 infrastructure, continued: the byte-slice panic of the table code.
`line[1..line.len()-1]` on a line that starts and ends with `|` panics
exactly when the line is the single character `"|"`. -/

lemma pipe_cells_chk_none (l : Str) (h : Gfm.pipe_cells_chk l = none) :
    l = toStr "|" := by
  rw [Gfm.pipe_cells_chk] at h
  split at h
  case _ hcond =>
    split at h
    case _ hlen =>
      rw [Bool.and_eq_true] at hcond
      obtain ⟨hh, -⟩ := hcond
      rcases l with _ | ⟨c, cs⟩
      · simp at hh
      · have hh2 : (c == '|') = true := hh
        have hc : c = '|' := by simpa using hh2
        subst hc
        rw [utf8Len_cons] at hlen
        rw [show ('|' : Char).utf8Size = 1 from by decide] at hlen
        rcases cs with _ | ⟨d, ds⟩
        · rfl
        · exfalso
          rw [utf8Len_cons] at hlen
          have := Char.utf8Size_pos d
          omega
    case _ => exact absurd h (by simp)
  case _ => exact absurd h (by simp)

lemma pipe_cells_chk_some (l : Str) (cs : List Str)
    (h : Gfm.pipe_cells_chk l = some cs) : cs = Gfm.pipe_cells l := by
  rw [Gfm.pipe_cells_chk] at h
  rw [Gfm.pipe_cells]
  split at h
  case _ hcond =>
    rw [if_pos hcond]
    split at h
    · exact absurd h (by simp)
    · exact (Option.some.inj h).symm
  case _ hcond =>
    rw [if_neg hcond]
    exact (Option.some.inj h).symm

lemma pipe_cells_chk_of_ne (l : Str) (h : l ≠ toStr "|") :
    Gfm.pipe_cells_chk l = some (Gfm.pipe_cells l) := by
  rcases hx : Gfm.pipe_cells_chk l with _ | cs
  · exact absurd (pipe_cells_chk_none l hx) h
  · rw [pipe_cells_chk_some l cs hx]

lemma sep_ne_pipe (l2 : Str) (h : Gfm.is_table_separator l2 = true) :
    l2 ≠ toStr "|" := fun he => absurd (he ▸ h) (by decide)

lemma table_rows_loop_chk_some : ∀ (rs : List Str) (run : List (List Str) × Nat),
    Gfm.table_rows_loop_chk rs = some run → run = Gfm.table_rows_loop rs := by
  intro rs
  induction rs with
  | nil =>
    intro run h
    rw [Gfm.table_rows_loop_chk] at h
    rw [Gfm.table_rows_loop]
    exact (Option.some.inj h).symm
  | cons r rs ih =>
    intro run h
    rw [Gfm.table_rows_loop_chk] at h
    rw [Gfm.table_rows_loop]
    split at h
    case _ hg =>
      rw [if_pos hg]
      exact (Option.some.inj h).symm
    case _ hg =>
      rw [if_neg hg]
      rcases hpc : Gfm.pipe_cells_chk r with _ | cells
      · rw [hpc] at h
        exact absurd h (by simp)
      · rw [hpc] at h
        dsimp only at h
        rcases hnext : Gfm.table_rows_loop_chk rs with _ | nxt
        · rw [hnext] at h
          exact absurd h (by simp)
        · rw [hnext] at h
          dsimp only at h
          have hcells := pipe_cells_chk_some r cells hpc
          subst hcells
          have hnxt := ih nxt hnext
          subst hnxt
          exact (Option.some.inj h).symm

lemma table_rows_loop_chk_none_iff : ∀ rs : List Str,
    Gfm.table_rows_loop_chk rs = none ↔ Gfm.rows_panic rs = true := by
  intro rs
  induction rs with
  | nil => simp [Gfm.table_rows_loop_chk, Gfm.rows_panic]
  | cons r rs ih =>
    rw [Gfm.table_rows_loop_chk, Gfm.rows_panic]
    by_cases hg : r.contains '|' = false ∨ trimBoth r = []
    · rw [if_pos hg, if_pos hg]
      simp
    · rw [if_neg hg, if_neg hg]
      rcases hpc : Gfm.pipe_cells_chk r with _ | cells
      · dsimp only
        rw [if_pos (pipe_cells_chk_none r hpc)]
        simp
      · have hr : r ≠ toStr "|" := by
          intro he
          rw [he] at hpc
          rw [show Gfm.pipe_cells_chk (toStr "|") = none from by decide] at hpc
          exact Option.noConfusion hpc
        rw [if_neg hr]
        dsimp only
        rcases hnext : Gfm.table_rows_loop_chk rs with _ | run
        · dsimp only
          exact ⟨fun _ => ih.mp hnext, fun _ => rfl⟩
        · dsimp only
          constructor
          · intro hcon
            exact Option.noConfusion hcon
          · intro hp
            rw [ih.mpr hp] at hnext
            exact Option.noConfusion hnext

lemma table_rows_loop_chk_of_no_panic (rest : List Str)
    (h : Gfm.rows_panic rest = false) :
    Gfm.table_rows_loop_chk rest = some (Gfm.table_rows_loop rest) := by
  rcases hx : Gfm.table_rows_loop_chk rest with _ | run
  · rw [(table_rows_loop_chk_none_iff rest).mp hx] at h
    exact Bool.noConfusion h
  · rw [table_rows_loop_chk_some rest run hx]

/-- **C4** (amended): a candidate table's separator line is accepted exactly
when its trimmed form has at least three bytes, contains a pipe, every
non-empty cell consists only of `:`, `-` and spaces, and **at least one**
(not every) non-empty cell contains a dash.  With a valid separator the
table is produced exactly when additionally some header cell is non-empty
and the data-row collection does not abort: a collected data row that is
exactly `"|"` makes the row code slice `line[1..0]`, a panic, so the call
aborts and produces nothing (`Except.error ()` in the faithful model
`parse_table_chk`, which agrees with the total `parse_table` whenever no
slice panics).  When the separator is invalid the starting line is not
consumed — with the other line rules also failing, it becomes a paragraph of
the same line and the scan continues at the next line. -/
theorem c4_amended :
    (∀ line : Str, Gfm.is_table_separator line = true ↔
      (3 ≤ utf8Len (trimBoth line) ∧ (trimBoth line).contains '|' = true
        ∧ (∀ cell ∈ Gfm.pipe_cells (trimBoth line), trimBoth cell ≠ [] →
            ∀ c ∈ trimBoth cell, c = ':' ∨ c = '-' ∨ c = ' ')
        ∧ (∃ cell ∈ Gfm.pipe_cells (trimBoth line), trimBoth cell ≠ []
            ∧ (trimBoth cell).contains '-' = true)))
    ∧ (∀ (l1 l2 : Str) (rest : List Str),
      (∃ tok n, Gfm.parse_table_chk l1 l2 rest = Except.ok (some (tok, n))) ↔
        (Gfm.is_table_separator l2 = true
          ∧ (∃ cell ∈ Gfm.pipe_cells l1, trimBoth cell ≠ [])
          ∧ Gfm.rows_panic rest = false))
    ∧ (∀ (l1 l2 : Str) (rest : List Str), l1 ≠ toStr "|" →
      Gfm.rows_panic rest = false →
      Gfm.parse_table_chk l1 l2 rest = Except.ok (Gfm.parse_table l1 l2 rest))
    ∧ (∀ (fuel : Nat) (l l2 : Str) (r2 : List Str),
      trimBoth (trim_end l) ≠ [] →
      (toStr "```").isPrefixOf (trim_end l) = false →
      Gfm.is_table_separator l2 = false →
      parse_heading (trim_end l) = none →
      Gfm.is_horizontal_rule (trim_end l) = false →
      Gfm.is_list_line (trim_end l) = false →
      (toStr "> ").isPrefixOf (trim_start (trim_end l)) = false →
      Gfm.tokenize (fuel + 1) (l :: l2 :: r2)
        = Gfm.GfmToken.paragraph (Gfm.process_inline_formatting (trim_end l))
            :: Gfm.tokenize fuel (l2 :: r2))
    ∧ Gfm.parse_table_chk (toStr "a|b") (toStr "-|-") [toStr "|"]
        = Except.error () := by
  refine ⟨?_, ?_, ?_, ?_, by rfl⟩
  · intro line
    rw [Gfm.is_table_separator]
    split
    case _ hcond =>
      constructor
      · intro h; exact absurd h (by simp)
      · rintro ⟨h1, h2, -, -⟩
        rcases hcond with hc | hc
        · omega
        · rw [h2] at hc; simp at hc
    case _ hcond =>
      rw [separator_loop_spec]
      push_neg at hcond
      constructor
      · rintro ⟨h1, h2⟩
        rcases h2 with h2 | h2
        · simp at h2
        · exact ⟨by omega, by simpa using hcond.2, h1, h2⟩
      · rintro ⟨-, -, h3, h4⟩
        exact ⟨h3, Or.inr h4⟩
  · intro l1 l2 rest
    constructor
    · rintro ⟨tok, n, h⟩
      rw [Gfm.parse_table_chk] at h
      split at h
      · simp at h
      case _ hsep =>
        rcases hpc1 : Gfm.pipe_cells_chk l1 with _ | hc
        · rw [hpc1] at h
          simp at h
        · rw [hpc1] at h
          dsimp only at h
          split at h
          · simp at h
          case _ hne =>
            have hceq := pipe_cells_chk_some l1 hc hpc1
            subst hceq
            rcases hpc2 : Gfm.pipe_cells_chk l2 with _ | sc
            · rw [hpc2] at h
              simp at h
            · rw [hpc2] at h
              dsimp only at h
              rcases hrows : Gfm.table_rows_loop_chk rest with _ | run
              · rw [hrows] at h
                simp at h
              · refine ⟨not_not.mp hsep, ?_, ?_⟩
                · have : ∃ cell ∈ Gfm.pipe_cells l1,
                      (fun cell => let t := trimBoth cell
                        if t = [] then none
                        else some (Gfm.process_inline_formatting t)) cell ≠ none := by
                    by_contra hall
                    push_neg at hall
                    exact hne (List.filterMap_eq_nil_iff.mpr hall)
                  obtain ⟨cell, hcm, hval⟩ := this
                  refine ⟨cell, hcm, ?_⟩
                  intro hnil
                  apply hval
                  simp [hnil]
                · cases hb : Gfm.rows_panic rest
                  · rfl
                  · rw [(table_rows_loop_chk_none_iff rest).mpr hb] at hrows
                    exact Option.noConfusion hrows
    · rintro ⟨hsep, ⟨cell, hcell, hcne⟩, hrp⟩
      have h1 : l1 ≠ toStr "|" := by
        intro he
        rw [he] at hcell
        rw [show Gfm.pipe_cells (toStr "|") = [[]] from by decide] at hcell
        have hc0 : cell = [] := by simpa using hcell
        apply hcne
        rw [hc0]
        rfl
      rw [Gfm.parse_table_chk, if_neg (by simp [hsep]), pipe_cells_chk_of_ne l1 h1]
      dsimp only
      rw [if_neg ?_]
      · rw [pipe_cells_chk_of_ne l2 (sep_ne_pipe l2 hsep)]
        dsimp only
        rw [table_rows_loop_chk_of_no_panic rest hrp]
        exact ⟨_, _, rfl⟩
      · intro hnil
        have : (fun cell => let t := trimBoth cell
            if t = [] then none
            else some (Gfm.process_inline_formatting t)) cell = none :=
          List.filterMap_eq_nil_iff.mp hnil cell hcell
        simp only [if_neg hcne] at this
        exact absurd this (by simp)
  · intro l1 l2 rest h1 hrp
    by_cases hsep : Gfm.is_table_separator l2 = true
    · rw [Gfm.parse_table_chk, Gfm.parse_table, if_neg (by simp [hsep]),
        if_neg (by simp [hsep]), pipe_cells_chk_of_ne l1 h1]
      dsimp only
      by_cases hhd : (Gfm.pipe_cells l1).filterMap (fun cell =>
          let t := trimBoth cell
          if t = [] then none else some (Gfm.process_inline_formatting t)) = []
      · rw [if_pos hhd, if_pos hhd]
      · rw [if_neg hhd, if_neg hhd,
          pipe_cells_chk_of_ne l2 (sep_ne_pipe l2 hsep)]
        dsimp only
        rw [table_rows_loop_chk_of_no_panic rest hrp]
    · rw [Gfm.parse_table_chk, Gfm.parse_table, if_pos hsep, if_pos hsep]
  · intro fuel l l2 r2 h1 h2 h3 h4 h5 h6 h7
    rw [Gfm.tokenize.eq_def]
    dsimp only
    rw [if_neg h1, if_neg (by simp [h2])]
    have hscrut : (if Gfm.is_potential_table_line (trim_end l) = true then
        match l2 :: r2 with
        | l2 :: r2 => Gfm.parse_table l l2 r2
        | [] => none
      else none) = none := by
      split
      · exact parse_table_none_of_sep_false l l2 r2 h3
      · rfl
    rw [hscrut, h4]
    dsimp only
    rw [if_neg (by simp [h5]), if_neg (by simp [h6]), if_neg (by simp [h7])]

/-- **C4** witness: the fall-through conjunct applied to the concrete lines
`"a|b"` and `":x|-"` (separator invalid because of the `x`), and the
panic-free agreement of the faithful and total table parsers on the
concrete table `"a|b"` / `"-|-"` / `"c|d"`. -/
theorem c4_amended_witness :
    Gfm.tokenize 2 [toStr "a|b", toStr ":x|-"]
      = Gfm.GfmToken.paragraph (Gfm.process_inline_formatting (trim_end (toStr "a|b")))
          :: Gfm.tokenize 1 [toStr ":x|-"]
    ∧ Gfm.parse_table_chk (toStr "a|b") (toStr "-|-") [toStr "c|d"]
        = Except.ok (Gfm.parse_table (toStr "a|b") (toStr "-|-") [toStr "c|d"]) :=
  ⟨c4_amended.2.2.2.1 1 (toStr "a|b") (toStr ":x|-") [] (by decide) (by decide)
      (by decide) (by decide) (by decide) (by decide) (by decide),
   c4_amended.2.2.1 (toStr "a|b") (toStr "-|-") [toStr "c|d"] (by decide) (by decide)⟩

/-! ### C8 infrastructure. -/

lemma render_td_go_mapIdx : ∀ (row : List Str) (aligns : List Gfm.Alignment) (i : Nat),
    (Gfm.render_td_go aligns i row).1
      = (row.mapIdx (fun j c => toStr "<td" ++ Gfm.get_align_style aligns (i + j)
          ++ toStr ">" ++ c ++ toStr "</td>")).flatten := by
  intro row
  induction row with
  | nil => intro aligns i; rfl
  | cons c cs ih =>
    intro aligns i
    rw [Gfm.render_td_go]
    rw [List.mapIdx_cons, List.flatten_cons]
    have hfun : (fun j (d : Str) => toStr "<td" ++ Gfm.get_align_style aligns (i + (j + 1))
          ++ toStr ">" ++ d ++ toStr "</td>")
        = (fun j (d : Str) => toStr "<td" ++ Gfm.get_align_style aligns ((i + 1) + j)
          ++ toStr ">" ++ d ++ toStr "</td>") := by
      funext j d
      rw [show i + (j + 1) = (i + 1) + j from by omega]
    simp only [ih, hfun]
    simp

/-- **C8** (amended): a separator cell whose trimmed form is non-empty and
contains a dash gets its alignment from its colons (leading only → Left,
trailing only → Right, both → Center, neither → None); a cell without a dash
always gets `None`, even when wrapped in colons (the "both → Center" reading
of the claim fails there, see the counterexample).  At render time the cell
at column `i` uses `alignments[i]`, indices at or beyond the alignment list
render with no `style` attribute, and a data row renders cell-for-cell
without padding or truncation. -/
theorem c8_amended :
    (∀ cell : Str, (trimBoth cell).contains '-' = false →
      Gfm.cell_alignment cell = Gfm.Alignment.none)
    ∧ (∀ cell : Str, trimBoth cell ≠ [] → (trimBoth cell).contains '-' = true →
      Gfm.cell_alignment cell =
        (if (trimBoth cell).head? = some ':' then
          (if (trimBoth cell).getLast? = some ':' then Gfm.Alignment.center
            else Gfm.Alignment.left)
        else
          (if (trimBoth cell).getLast? = some ':' then Gfm.Alignment.right
            else Gfm.Alignment.none)))
    ∧ (∀ (aligns : List Gfm.Alignment) (i : Nat), aligns.length ≤ i →
      Gfm.get_align_style aligns i = [])
    ∧ (∀ (row : List Str) (aligns : List Gfm.Alignment),
      (Gfm.render_td_go aligns 0 row).1
        = (row.mapIdx (fun j c => toStr "<td" ++ Gfm.get_align_style aligns j
            ++ toStr ">" ++ c ++ toStr "</td>")).flatten)
    ∧ (Gfm.parse_gfm_markdown_to_html (toStr "a|b\n:-|-:\np|q|r")).html
        = toStr "<table><thead><tr><th style=\"text-align: left\">a</th><th style=\"text-align: right\">b</th></tr></thead><tbody><tr><td style=\"text-align: left\">p</td><td style=\"text-align: right\">q</td><td>r</td></tr></tbody></table>" := by
  refine ⟨?_, ?_, ?_, ?_, by decide⟩
  · intro cell h
    have h2 : ('-' : Char) ∉ trimBoth cell := by simpa using h
    rw [Gfm.cell_alignment]
    rw [if_neg (fun hcon => h2 (by simpa using hcon.2))]
  · intro cell hne hdash
    rw [Gfm.cell_alignment]
    rw [if_pos ⟨hne, hdash⟩]
    dsimp only
    rcases hh : (trimBoth cell).head? with _ | c0
    · exact absurd (List.head?_eq_none_iff.mp hh) hne
    · rcases hl : (trimBoth cell).getLast? with _ | cl
      · exact absurd (List.getLast?_eq_none_iff.mp hl) hne
      · by_cases hc0 : c0 = ':'
        · by_cases hcl : cl = ':'
          · simp [hh, hl, hc0, hcl]
          · simp [hh, hl, hc0, hcl]
        · by_cases hcl : cl = ':'
          · simp [hh, hl, hc0, hcl]
          · simp [hh, hl, hc0, hcl]
  · intro aligns i h
    rw [Gfm.get_align_style]
    rw [List.get?_eq_none.mpr h]
  · intro row aligns
    rw [render_td_go_mapIdx]
    simp

/-- **C8** witness: the amended characterization applied to the cells
`":-"` (Left), `"-:"` (Right), `":-:"` (Center), `"::"` (no dash, None),
and to an out-of-range column index. -/
theorem c8_amended_witness :
    Gfm.cell_alignment (toStr ":-") = Gfm.Alignment.left
    ∧ Gfm.cell_alignment (toStr "::") = Gfm.Alignment.none
    ∧ Gfm.get_align_style [Gfm.Alignment.left] 3 = [] := by
  refine ⟨?_, ?_, ?_⟩
  · have h := c8_amended.2.1 (toStr ":-") (by decide) (by decide)
    rw [h]
    decide
  · exact c8_amended.1 (toStr "::") (by decide)
  · exact c8_amended.2.2.1 [Gfm.Alignment.left] 3 (by decide)

/-! ### C9 infrastructure: alert tags. -/

lemma parse_alert_type_iff (t : Str) (k : Gfm.AlertType) :
    Gfm.parse_alert_type t = some k ↔ t = tag_str k := by
  constructor
  · intro h
    rw [Gfm.parse_alert_type] at h
    split_ifs at h <;> simp_all [tag_str] <;> (subst h; rfl)
  · intro h
    subst h
    cases k <;> rfl

lemma toStr_quote_open : toStr "> [!" = ['>', ' ', '[', '!'] := rfl

lemma toStr_quote : toStr "> " = ['>', ' '] := rfl

lemma tag_str_note : tag_str Gfm.AlertType.note = ['[', '!', 'N', 'O', 'T', 'E', ']'] := rfl

lemma tag_str_tip : tag_str Gfm.AlertType.tip = ['[', '!', 'T', 'I', 'P', ']'] := rfl

lemma tag_str_important :
    tag_str Gfm.AlertType.important
      = ['[', '!', 'I', 'M', 'P', 'O', 'R', 'T', 'A', 'N', 'T', ']'] := rfl

lemma tag_str_warning :
    tag_str Gfm.AlertType.warning = ['[', '!', 'W', 'A', 'R', 'N', 'I', 'N', 'G', ']'] := rfl

lemma tag_str_caution :
    tag_str Gfm.AlertType.caution = ['[', '!', 'C', 'A', 'U', 'T', 'I', 'O', 'N', ']'] := rfl

/-- The first `]` of a five-tag line is the tag's own closing bracket. -/
lemma findCharIdx_tag (k : Gfm.AlertType) (suffix : Str) :
    findCharIdx ']' (tag_str k ++ suffix) = some ((tag_str k).length - 1) := by
  cases k <;>
    simp [tag_str_note, tag_str_tip, tag_str_important, tag_str_warning, tag_str_caution,
      findCharIdx]

lemma take_tag (k : Gfm.AlertType) (suffix : Str) :
    (tag_str k ++ suffix).take ((tag_str k).length - 1 + 1) = tag_str k := by
  cases k <;>
    simp [tag_str_note, tag_str_tip, tag_str_important, tag_str_warning, tag_str_caution]

/-- First-line characterization of `parse_alert`: an alert of kind `k` is
produced exactly when the line's trimmed form is `"> "` followed by the
kind's literal tag. -/
lemma parse_alert_iff (l : Str) (rest : List Str) (k : Gfm.AlertType) :
    (∃ content n, Gfm.parse_alert l rest = some (Gfm.GfmToken.alert k content, n)) ↔
      ∃ suffix, trim_start l = (toStr "> " ++ tag_str k) ++ suffix := by
  constructor
  · rintro ⟨content, n, h⟩
    rw [Gfm.parse_alert] at h
    split at h
    · simp at h
    case _ hpre =>
      have hpre2 : (toStr "> [!").isPrefixOf (trim_start l) = true := not_not.mp hpre
      dsimp only at h
      rcases hfind : findCharIdx ']' ((trim_start l).drop 2) with _ | cb
      · rw [hfind] at h; simp at h
      · rw [hfind] at h
        dsimp only at h
        rcases hty : Gfm.parse_alert_type (((trim_start l).drop 2).take (cb + 1))
            with _ | ty
        · rw [hty] at h; simp at h
        · rw [hty] at h
          dsimp only at h
          have hk : ty = k := by
            have hpair := Option.some.inj h
            have hfst := congrArg Prod.fst hpair
            dsimp only at hfst
            injection hfst
          subst hk
          have htag := (parse_alert_type_iff _ _).mp hty
          obtain ⟨r, hr⟩ := List.isPrefixOf_iff_prefix.mp hpre2
          have key : trim_start l
              = toStr "> " ++ (tag_str ty ++ ((trim_start l).drop 2).drop (cb + 1)) := by
            rw [← htag, List.take_append_drop]
            rw [← hr]
            rfl
          rw [← List.append_assoc] at key
          exact ⟨_, key⟩
  · rintro ⟨suffix, hts⟩
    rw [Gfm.parse_alert, hts]
    have hpre : (toStr "> [!").isPrefixOf ((toStr "> " ++ tag_str k) ++ suffix) = true := by
      cases k <;>
        simp [toStr_quote, toStr_quote_open, tag_str_note, tag_str_tip, tag_str_important,
          tag_str_warning, tag_str_caution, List.isPrefixOf]
    rw [if_neg (not_not_intro hpre)]
    dsimp only
    have hd2 : (((toStr "> ") ++ tag_str k) ++ suffix).drop 2 = tag_str k ++ suffix := by
      rw [List.append_assoc, toStr_quote]
      rfl
    rw [hd2, findCharIdx_tag k suffix]
    dsimp only
    rw [take_tag k suffix]
    rw [(parse_alert_type_iff (tag_str k) k).mpr rfl]
    dsimp only
    exact ⟨_, _, rfl⟩

lemma parse_alert_none_iff (l : Str) (rest : List Str) :
    Gfm.parse_alert l rest = none ↔
      ∀ (k : Gfm.AlertType) (suffix : Str),
        trim_start l ≠ (toStr "> " ++ tag_str k) ++ suffix := by
  constructor
  · intro h k suffix heq
    obtain ⟨c, n, hsome⟩ := (parse_alert_iff l rest k).mpr ⟨suffix, heq⟩
    rw [h] at hsome
    exact Option.noConfusion hsome
  · intro h
    rcases hres : Gfm.parse_alert l rest with _ | val
    · rfl
    · obtain ⟨tok, n⟩ := val
      obtain ⟨ty, c, rfl⟩ := gfm_parse_alert_shape _ _ _ _ hres
      obtain ⟨suffix, heq⟩ := (parse_alert_iff l rest ty).mp ⟨c, n, hres⟩
      exact absurd heq (h ty suffix)

/-- **C9**: an alert of kind `k` is produced exactly when the line trims to
`"> "` followed by that kind's literal tag (`[!NOTE]`, `[!TIP]`,
`[!IMPORTANT]`, `[!WARNING]`, `[!CAUTION]`, case-sensitively); a quoted line
matching no tag falls through to an ordinary blockquote token (no error);
`> [!WARNING]\n> careful` renders in the extended dialect as a
`<div class="alert alert-warning">` with title `Warning` and the quoted
content, while the basic dialect renders the same input as plain
blockquotes whose html never mentions `alert`. -/
theorem c9_alerts :
    (∀ (l : Str) (rest : List Str) (k : Gfm.AlertType),
      (∃ content n, Gfm.parse_alert l rest = some (Gfm.GfmToken.alert k content, n)) ↔
        ∃ suffix, trim_start l = (toStr "> " ++ tag_str k) ++ suffix)
    ∧ (∀ (fuel : Nat) (l : Str) (rest : List Str),
        trimBoth (trim_end l) ≠ [] →
        (toStr "```").isPrefixOf (trim_end l) = false →
        Gfm.is_potential_table_line (trim_end l) = false →
        parse_heading (trim_end l) = none →
        Gfm.is_horizontal_rule (trim_end l) = false →
        Gfm.is_list_line (trim_end l) = false →
        (toStr "> ").isPrefixOf (trim_start (trim_end l)) = true →
        (∀ (k : Gfm.AlertType) (suffix : Str),
          trim_start l ≠ (toStr "> " ++ tag_str k) ++ suffix) →
        Gfm.tokenize (fuel + 1) (l :: rest)
          = Gfm.GfmToken.blockquote
              (Gfm.process_inline_formatting ((trim_start (trim_end l)).drop 2))
            :: Gfm.tokenize fuel rest)
    ∧ ((Gfm.parse_gfm_markdown_to_html (toStr "> [!WARNING]\n> careful")).html
          = toStr "<div class=\"alert alert-warning\"><div class=\"alert-icon\">"
            ++ [Char.ofNat 0x201A, Char.ofNat 0xF6, Char.ofNat 0x2020, Char.ofNat 0xD4,
                Char.ofNat 0x220F, Char.ofNat 0xE8]
            ++ toStr "</div><div class=\"alert-content\"><div class=\"alert-title\">Warning</div><p>careful</p></div></div>"
        ∧ (Gfm.parse_gfm_markdown_to_html (toStr "> [!WARNING]\n> careful")).word_count = 1)
    ∧ ((Basic.parse_basic_markdown_to_html (toStr "> [!WARNING]\n> careful")).html
          = toStr "<blockquote><p>[!WARNING]</p></blockquote><blockquote><p>careful</p></blockquote>"
        ∧ occurs_in (toStr "alert")
            (Basic.parse_basic_markdown_to_html (toStr "> [!WARNING]\n> careful")).html
          = false) := by
  refine ⟨fun l rest k => parse_alert_iff l rest k, ?_, by decide, by decide⟩
  intro fuel l rest h1 h2 h3 h4 h5 h6 h7 h8
  rw [Gfm.tokenize.eq_def]
  dsimp only
  rw [if_neg h1, if_neg (by simp [h2])]
  have hscrut : (if Gfm.is_potential_table_line (trim_end l) = true then
      match rest with
      | l2 :: r2 => Gfm.parse_table l l2 r2
      | [] => none
    else none) = none := by rw [if_neg (by simp [h3])]
  rw [hscrut, h4]
  dsimp only
  rw [if_neg (by simp [h5]), if_neg (by simp [h6]), if_pos h7]
  rw [(parse_alert_none_iff l rest).mpr h8]

/-- **C9** witness: the fall-through conjunct applied to the unrecognized tag
line `"> [!WARN] x"`, which becomes an ordinary blockquote. -/
theorem c9_alerts_witness :
    Gfm.tokenize 2 [toStr "> [!WARN] x"]
      = Gfm.GfmToken.blockquote
          (Gfm.process_inline_formatting
            ((trim_start (trim_end (toStr "> [!WARN] x"))).drop 2))
        :: Gfm.tokenize 1 [] :=
  c9_alerts.2.1 1 (toStr "> [!WARN] x") [] (by decide) (by decide) (by decide) (by decide)
    (by decide) (by decide) (by decide)
    ((parse_alert_none_iff (toStr "> [!WARN] x") []).mp (by decide))

/-! ### C10 infrastructure. -/

lemma open_wrappers_html : ∀ (k current : Nat) (stack : List Nat),
    (Gfm.open_wrappers k current stack).1 = (List.replicate k (toStr "<ul>")).flatten := by
  intro k
  induction k with
  | zero => intro current stack; rfl
  | succ k ih =>
    intro current stack
    rw [Gfm.open_wrappers, List.replicate_succ, List.flatten_cons, ih]

lemma close_wrappers_html : ∀ (stack : List Nat) (current target : Nat),
    ∃ m, (Gfm.close_wrappers target current stack).1
      = (List.replicate m (toStr "</ul>")).flatten := by
  intro stack
  induction stack with
  | nil => intro current target; exact ⟨0, rfl⟩
  | cons s ss ih =>
    intro current target
    rw [Gfm.close_wrappers]
    split
    · obtain ⟨m, hm⟩ := ih (current - 1) target
      exact ⟨m + 1, by rw [List.replicate_succ, List.flatten_cons]; dsimp only; rw [hm]⟩
    · exact ⟨0, rfl⟩

/-- **C10**: in the extended dialect only the outermost list wrapper depends
on the ordered flag (`<ol>`/`</ol>` when ordered, `<ul>`/`</ul>` otherwise):
both flags render the same inner body; the wrapper-opening loop emits only
copies of `<ul>` and the wrapper-closing loop only copies of `</ul>`, so an
ordered token's nested deeper-level wrappers are still `<ul>`, as in the
nested document `1. a\n   2. b`. -/
theorem c10_nested_wrappers :
    (∀ items : List Gfm.GfmListItem,
      Gfm.render_token (Gfm.GfmToken.list items true)
        = (toStr "<ol>" ++ (Gfm.render_gfm_list_items items).1 ++ toStr "</ol>",
            (Gfm.render_gfm_list_items items).2)
      ∧ Gfm.render_token (Gfm.GfmToken.list items false)
        = (toStr "<ul>" ++ (Gfm.render_gfm_list_items items).1 ++ toStr "</ul>",
            (Gfm.render_gfm_list_items items).2))
    ∧ (∀ (k current : Nat) (stack : List Nat),
      (Gfm.open_wrappers k current stack).1 = (List.replicate k (toStr "<ul>")).flatten)
    ∧ (∀ (stack : List Nat) (current target : Nat),
      ∃ m, (Gfm.close_wrappers target current stack).1
        = (List.replicate m (toStr "</ul>")).flatten)
    ∧ (Gfm.parse_gfm_markdown_to_html (toStr "1. a\n   2. b")).html
        = toStr "<ol><li>a</li><ul><li>b</li></ul></ol>" :=
  ⟨fun items => ⟨rfl, rfl⟩, open_wrappers_html, close_wrappers_html, by decide⟩
